import Mathlib

/-!
# Camera calibration tool: embedding of `camera-calibration.cpp`

The program is a command dispatcher around an external vision library.  The
embedding keeps the control flow of every function of the source file and
passes the outside world explicitly:

* the file system is a finite table from locations to nodes (directories and
  regular files; there are no symbolic links); a `std::filesystem::path` is
  the list of the components of its text, kept as written (with its `.`, `..`
  and empty components), so that `dir.string() + "/" + name` is
  `dir ++ [name]`, and every file system call walks the text it is given
  through the file system as it is at that moment;
* what the program does to the outside (console, camera, image files, solver,
  calibration file) is recorded, in order, in a trace of events; the windows
  (`namedWindow`, `destroyAllWindows`) and the blocking `waitKey(-1)` of the
  inspection step leave no event;
* the results of the vision library (frames, key codes, detected corners,
  solver result) are given by an oracle record `Vision`; two of its calls
  raise a `cv::Exception`: `cv::cvtColor` on the empty matrix that
  `cv::imread` returns for a file it cannot decode, and the solver when it
  refuses its input;
* a C++ exception, `std::exit` and undefined behaviour are outcomes of a
  computation;
* `int32_t` values are integers, with the overflow of the image counter made
  explicit.
-/

namespace CamCal

/-! ## Values of the vision library -/

/-- A `cv::Mat`.  The program never computes on matrix elements, it only moves
matrices between library calls, files and the console, so the elements are
carried as exact numbers. -/
abbrev Mat := List (List Int)

/-- A `cv::Point2f` (a detected corner; produced by the library only). -/
structure Point2f where
  x : Int
  y : Int
deriving DecidableEq

/-- A `cv::Point3f`.  The only values the program builds are `float(j)`,
`float(i)` and `0` for small integers, which are exact. -/
structure Point3f where
  x : Int
  y : Int
  z : Int
deriving DecidableEq

/-- A `cv::Size`. -/
structure Size where
  width : Int
  height : Int
deriving DecidableEq

/-- What `cv::calibrateCamera` hands back on success. -/
structure Calibration where
  rms : Int
  cameraMatrix : Mat
  distortionCoeffs : Mat
  rotationVector : Mat
  translationVector : Mat
deriving DecidableEq

/-! ## File system -/

/-- A location: the components of the canonical absolute path of a node, root
first. -/
abbrev Loc := List String

/-- A `std::filesystem::path`: the components of its text from the root, as
written; next to names it may hold `.`, `..` and empty components. -/
abbrev Path := List String

/-- What a regular file holds. -/
inductive Content where
  /-- any other file, by its bytes -/
  | bytes (data : List Nat)
  /-- an image written by `cv::imwrite` -/
  | image (m : Mat)
  /-- a `cv::FileStorage` document: named entries in document order -/
  | storage (entries : List (String × Mat))
deriving DecidableEq

/-- A node of the file system. -/
inductive Node where
  | dir
  | file (c : Content)
deriving DecidableEq

/-- The file system: the table of existing nodes. -/
structure FS where
  nodes : List (Loc × Node)
deriving DecidableEq

/-- The text `path.filename().string()`: the last component. -/
def filename (p : Path) : String :=
  p.getLast?.getD ""

/-- A component that names an entry. -/
def isName (c : String) : Bool :=
  c ≠ "" ∧ c ≠ "." ∧ c ≠ ".."

/-- The node at a location, if any. -/
def FS.node (fs : FS) (l : Loc) : Option Node :=
  (fs.nodes.find? (fun e => e.1 = l)).map (fun e => e.2)

/-- Whether the location holds a directory. -/
def FS.isDirAt (fs : FS) (l : Loc) : Bool :=
  fs.node l = some Node.dir

/-- Whether location `p` is an entry of the directory at `d`. -/
def isChild (d p : Loc) : Bool :=
  p ≠ [] ∧ p.dropLast = d ∧ isName (filename p)

/-- Whether `p` is `d` or lies below it. -/
def isUnder (d p : Loc) : Bool :=
  d.isPrefixOf p

/-- Whether `p` lies strictly below `d`. -/
def isBelow (d p : Loc) : Bool :=
  isUnder d p ∧ p ≠ d

/-- The entries of the directory at `d`, in table order (the order of
`std::filesystem::directory_iterator` is unspecified). -/
def FS.entriesAt (fs : FS) (d : Loc) : List Loc :=
  (fs.nodes.filter (fun e => isChild d e.1)).map (fun e => e.1)

/-- The node at `l` and everything below it is gone. -/
def FS.removeAt (fs : FS) (l : Loc) : FS :=
  ⟨fs.nodes.filter (fun e => !(isUnder l e.1))⟩

/-- Whether a regular file can be created or replaced at `l`: the parent is an
existing directory and `l` is no directory. -/
def FS.canWriteAt (fs : FS) (l : Loc) : Bool :=
  l ≠ [] ∧ fs.isDirAt l.dropLast ∧ ¬ fs.isDirAt l

/-- Create or replace the regular file at `l`; where that cannot be done the
file system stays as it is. -/
def FS.writeAt (fs : FS) (l : Loc) (c : Content) : FS :=
  if fs.canWriteAt l then
    ⟨(fs.nodes.filter (fun e => e.1 ≠ l)) ++ [(l, Node.file c)]⟩
  else fs

/-- One step of the walk along a path text: an empty component or `.` stays,
`..` goes to the parent, a name goes to the entry of that name. -/
def step (l : Loc) (c : String) : Loc :=
  if c = "" ∨ c = "." then l
  else if c = ".." then l.dropLast
  else l ++ [c]

/-- The walk of the system along the components of a path text, from `l`: each
step is taken from an existing directory, otherwise the walk fails (`ENOENT`,
`ENOTDIR`); the location reached last need not exist. -/
def FS.walk (fs : FS) : Loc → Path → Option Loc
  | l, [] => some l
  | l, c :: cs => if fs.isDirAt l then fs.walk (step l c) cs else none

/-- The locations the walk stands on. -/
def FS.trail (fs : FS) : Loc → Path → List Loc
  | l, [] => [l]
  | l, c :: cs => l :: (if fs.isDirAt l then fs.trail (step l c) cs else [])

/-- The location a path text denotes. -/
def FS.locate (fs : FS) (p : Path) : Option Loc :=
  fs.walk [] p

/-- The node a path text denotes, if any. -/
def FS.lookup (fs : FS) (p : Path) : Option Node :=
  (fs.locate p).bind fs.node

/-- Whether `p` denotes an existing directory. -/
def FS.isDir (fs : FS) (p : Path) : Bool :=
  fs.lookup p = some Node.dir

/-- The paths `std::filesystem::directory_iterator(p)` yields: `p / name` for
every entry (the entries `.` and `..` are skipped), in table order. -/
def FS.children (fs : FS) (p : Path) : List Path :=
  match fs.locate p with
  | some l => (fs.entriesAt l).map (fun c => p ++ [filename c])
  | none => []

/-- The effect of `std::filesystem::remove_all(p)`: what `p` denotes and
everything below it is gone; nothing happens when `p` denotes nothing (in this
program such a path has lost a directory of its text to an earlier removal,
and the call finds `ENOENT`). -/
def FS.remove_all (fs : FS) (p : Path) : FS :=
  match fs.locate p with
  | some l => fs.removeAt l
  | none => fs

/-- Whether a regular file can be created or replaced at `p`. -/
def FS.canWrite (fs : FS) (p : Path) : Bool :=
  match fs.locate p with
  | some l => fs.canWriteAt l
  | none => false

/-- Create or replace the regular file `p`; where that cannot be done the file
system stays as it is. -/
def FS.writeFile (fs : FS) (p : Path) (c : Content) : FS :=
  match fs.locate p with
  | some l => fs.writeAt l c
  | none => fs

/-- The effect of removing the nodes at `cs` in turn. -/
def FS.removeEachAt (fs : FS) (cs : List Loc) : FS :=
  cs.foldl (fun fs c => fs.removeAt c) fs

/-- A tree: every node other than the root has an existing parent directory and
a name as its last component. -/
def FS.Closed (fs : FS) : Prop :=
  ∀ e ∈ fs.nodes, e.1 ≠ [] →
    (e.1.dropLast, Node.dir) ∈ fs.nodes ∧ isName (filename e.1) = true

/-- The table of `fs'` is the table of `fs` without the nodes at some locations. -/
def FS.Within (fs' fs : FS) : Prop :=
  ∃ keep : Loc → Bool, fs'.nodes = fs.nodes.filter (fun e => keep e.1)

/-! ## Outcomes and the world -/

/-- The C++ exceptions that can travel through the program. -/
inductive Exn where
  /-- a `cv::Exception`, with its `what()` -/
  | cv (what : String)
  /-- `std::invalid_argument` (from `std::stoi`) -/
  | invalid_argument (what : String)
  /-- `std::out_of_range` (from `std::stoi`) -/
  | out_of_range (what : String)
  /-- `std::filesystem::filesystem_error` -/
  | filesystem_error (what : String)
deriving DecidableEq

/-- What the program does to the outside, in order. -/
inductive Event where
  /-- text sent to `std::cout` -/
  | out (text : String)
  /-- a path sent to `std::cout` -/
  | outPath (p : Path)
  /-- a matrix sent to `std::cout` -/
  | outMat (m : Mat)
  /-- a number produced by the library sent to `std::cout` -/
  | outNum (n : Int)
  /-- `cv::VideoCapture(cameraIndex, cv::CAP_V4L2)` -/
  | openCapture (cameraIndex : Int)
  /-- `cv::imshow` -/
  | imshow (window : String) (m : Mat)
  /-- `cv::imwrite` -/
  | imwrite (fileName : Path) (m : Mat)
  /-- `cv::imread` -/
  | imread (fileName : Path)
  /-- `std::filesystem::remove_all` -/
  | remove_all (p : Path)
  /-- `cv::calibrateCamera` -/
  | calibrateCamera (objectPoints : List (List Point3f)) (imagePoints : List (List Point2f))
      (imageSize : Size)
  /-- `cv::initUndistortRectifyMap` -/
  | initUndistortRectifyMap (cameraMatrix distCoeffs newCameraMatrix : Mat) (size : Size)
  /-- a `cv::FileStorage` opened for writing is released -/
  | storageSaved (file : Path) (entries : List (String × Mat))
deriving DecidableEq

/-- The state a computation runs in. -/
structure World where
  fs : FS
  trace : List Event
deriving DecidableEq

/-- How a computation ends. -/
inductive Outcome (α : Type) where
  /-- it returns -/
  | done (a : α) (w : World)
  /-- it calls `std::exit` -/
  | exit (status : Int) (w : World)
  /-- an exception leaves it; out of `main` this is `std::terminate` -/
  | throw (e : Exn) (w : World)
  /-- it has undefined behaviour -/
  | undefined
deriving DecidableEq

/-- A computation. -/
def Prog (α : Type) : Type := World → Outcome α

/-- Sequencing: only a returning computation continues. -/
def Prog.bind {α β : Type} (x : Prog α) (f : α → Prog β) : Prog β :=
  fun w =>
    match x w with
    | .done a w1 => f a w1
    | .exit s w1 => .exit s w1
    | .throw e w1 => .throw e w1
    | .undefined => .undefined

instance : Monad Prog where
  pure a := fun w => .done a w
  bind := Prog.bind

/-- Record an event. -/
def emit (e : Event) : Prog Unit :=
  fun w => .done () { w with trace := w.trace ++ [e] }

/-- Text to `std::cout`. -/
def cout (s : String) : Prog Unit := emit (.out s)

/-- The statement `throw e`. -/
def raise {α : Type} (e : Exn) : Prog α :=
  fun w => .throw e w

/-- The call `std::exit(status)`. -/
def std_exit {α : Type} (status : Int) : Prog α :=
  fun w => .exit status w

/-- Undefined behaviour. -/
def undefinedBehaviour {α : Type} : Prog α :=
  fun _ => .undefined

/-- The current file system. -/
def getFS : Prog FS :=
  fun w => .done w.fs w

/-- Replace the file system. -/
def setFS (fs : FS) : Prog Unit :=
  fun w => .done () { w with fs := fs }

/-- The block `try { body } catch (cv::Exception& ex) { handler ex.what() }`. -/
def tryCatchCv {α : Type} (body : Prog α) (handler : String → Prog α) : Prog α :=
  fun w =>
    match body w with
    | .throw (.cv what) w1 => handler what w1
    | r => r

/-! ## The camera and the vision library -/

/-- A video device as the program sees it. -/
structure Camera where
  /-- result of `isOpened()` -/
  isOpened : Bool
  /-- `CAP_PROP_FRAME_WIDTH`, `CAP_PROP_FRAME_HEIGHT` -/
  frameSize : Size
  /-- the frames `read` yields before it fails, each with the code `cv::waitKey`
  returns once that frame is on screen -/
  stream : List (Mat × Int)

/-- The results of the library calls the program depends on.  A field stands
for the call with the fixed arguments the source passes (`cv::CAP_V4L2`,
`cv::COLOR_RGB2GRAY`, `windowSize`, `zeroZone`, `criteria`, `alpha = 0`,
`CV_32FC1`, `cv::INTER_LINEAR`).  The solver can fail, with the `what()` of its
exception; `cvtColor` is the conversion of a matrix that is not empty (see
`CamCal.cvtColor` for the empty one); the detector and the refinement are
given the grey image of a decoded file, on which they return. -/
structure Vision where
  camera : Int → Camera
  cvtColor : Mat → Mat
  findChessboardCorners : Mat → Size → Option (List Point2f)
  cornerSubPix : Mat → List Point2f → List Point2f
  drawChessboardCorners : Mat → Size → List Point2f → Mat
  calibrateCamera : List (List Point3f) → List (List Point2f) → Size → Except String Calibration
  getOptimalNewCameraMatrix : Mat → Mat → Size → Mat
  initUndistortRectifyMap : Mat → Mat → Mat → Size → Mat × Mat
  remap : Mat → Mat → Mat → Mat

/-- The effect of `cv::imwrite(fileName, frame)`; its result is ignored by the program. -/
def imwrite (fileName : Path) (frame : Mat) : Prog Unit := do
  emit (.imwrite fileName frame)
  let fs ← getFS
  setFS (fs.writeFile fileName (.image frame))

/-- Whether a matrix is empty (`cv::Mat::empty()`). -/
def matEmpty (m : Mat) : Bool :=
  m.all (fun row => row.isEmpty)

/-- The call `cv::cvtColor(image, image, cv::COLOR_RGB2GRAY)`: on an empty
matrix the library raises (its assertion `!_src.empty()`), otherwise it
converts. -/
def cvtColor (cv : Vision) (image : Mat) : Prog Mat :=
  if matEmpty image then raise (.cv "(-215:Assertion failed) !_src.empty() in function cvtColor")
  else pure (cv.cvtColor image)

/-- The result of `cv::imread(path)`: the stored image, or an empty matrix
when the file is missing or cannot be decoded. -/
def imread (fs : FS) (p : Path) : Mat :=
  match fs.lookup p with
  | some (.file (.image m)) => m
  | _ => []

/-! ## `aquireCalibrationPhotos` -/

/-- The largest `int32_t`. -/
def INT32_MAX : Int := 2147483647

/-- The name `"calibration_image_" + std::to_string(count) + ".png"`. -/
def imageName (count : Int) : String :=
  "calibration_image_" ++ toString count ++ ".png"

/-- The loop `while (capture.read(frame))` of `aquireCalibrationPhotos`. -/
def aquireLoop (imagesPath : Path) : List (Mat × Int) → Int → Prog Int
  | [], count => pure count
  | (frame, code) :: rest, count => do
    emit (.imshow "Calibration Image" frame)
    let key := code % 256
    if key = 27 then pure count
    else if key = 13 then
      if count = INT32_MAX then undefinedBehaviour
      else do
        let count := count + 1
        let fileName := imagesPath ++ [imageName count]
        imwrite fileName frame
        cout ("Image grabbed #" ++ toString count ++ "\n")
        aquireLoop imagesPath rest count
    else aquireLoop imagesPath rest count

/-- The function `aquireCalibrationPhotos`. -/
def aquireCalibrationPhotos (cv : Vision) (cameraIndex : Int) (imagesPath : Path) : Prog Int := do
  emit (.openCapture cameraIndex)
  let capture := cv.camera cameraIndex
  if !capture.isOpened then
    cout ("Failed to open the video stream for camera #" ++ toString cameraIndex ++ "\n")
    std_exit 0
  else do
    cout "Hit RETURN to grab an image, ESC to quit...\n"
    let count ← aquireLoop imagesPath capture.stream 0
    pure count

/-! ## `endsWith` -/

/-- The function `endsWith`: `fullString.compare(pos, len, ending) == 0` holds
exactly when the `len` characters of `fullString` from `pos` on are `ending`. -/
def endsWith (fullString ending : String) : Bool :=
  let success := false
  if fullString.length ≥ ending.length then
    ((fullString.data.drop (fullString.length - ending.length)).take ending.length) = ending.data
  else success

/-! ## `generateCalibration` -/

/-- The constant `patternSize`. -/
def patternSize : Size := ⟨13, 8⟩

/-- The grid `objP`: the two nested loops pushing `Point3f(float(j), float(i), 0)`. -/
def objP : List Point3f :=
  (List.range patternSize.height.toNat).foldl
    (fun acc i => (List.range patternSize.width.toNat).foldl
      (fun acc j => acc ++ [⟨(j : Int), (i : Int), 0⟩]) acc) []

/-- The iteration `std::filesystem::directory_iterator(p)`, run to its end. -/
def directory_iterator (p : Path) : Prog (List Path) := do
  let fs ← getFS
  if fs.isDir p then pure (fs.children p)
  else raise (.filesystem_error "directory_iterator")

/-- Lexicographic "less" of two sequences by a "less" of their elements
(`std::lexicographical_compare`). -/
def lexLess {α : Type} (less : α → α → Bool) : List α → List α → Bool
  | _, [] => false
  | [], _ :: _ => true
  | a :: as, b :: bs =>
    if less a b then true
    else if less b a then false
    else lexLess less as bs

/-- The order of `std::string`: by characters (for UTF-8 text the order by
bytes and the order by code points agree). -/
def stringLess (a b : String) : Bool :=
  lexLess (fun c d => decide (c < d)) a.data b.data

/-- The order of `std::filesystem::path`: by components, each as a string. -/
def pathLess (a b : Path) : Bool :=
  lexLess stringLess a b

/-- The call `std::set<std::filesystem::path>::insert`: the set is kept as its
strictly increasing list of elements. -/
def setInsert (a : Path) : List Path → List Path
  | [] => [a]
  | b :: l =>
    if pathLess a b then a :: b :: l
    else if pathLess b a then b :: setInsert a l
    else b :: l

/-- The set `sortedFileSet` once every entry is inserted. -/
def sortedFileSet (entries : List Path) : List Path :=
  entries.foldl (fun s p => setInsert p s) []

/-- The test `std::filesystem::is_regular_file(p)`. -/
def is_regular_file (fs : FS) (p : Path) : Bool :=
  match fs.lookup p with
  | some (.file _) => true
  | _ => false

/-- The loop `for (auto& path : sortedFileSet)` of `generateCalibration`, on the
accumulators `objectPoints` and `imagePoints`. -/
def calibLoop (cv : Vision) :
    List Path → List (List Point3f) × List (List Point2f) →
      Prog (List (List Point3f) × List (List Point2f))
  | [], acc => pure acc
  | path :: rest, (objectPoints, imagePoints) => do
    let file := filename path
    let fs ← getFS
    if is_regular_file fs path && endsWith file ".png" then
      cout ("Processing image: " ++ file ++ "\n")
      emit (.imread path)
      let image := imread fs path
      let image ← cvtColor cv image
      match cv.findChessboardCorners image patternSize with
      | none =>
        cout ("No corners found in image: " ++ file ++ "\n")
        calibLoop cv rest (objectPoints, imagePoints)
      | some corners =>
        let corners := cv.cornerSubPix image corners
        let imagePoints := imagePoints ++ [corners]
        let objectPoints := objectPoints ++ [objP]
        let image := cv.drawChessboardCorners image patternSize corners
        emit (.imshow "Calibration Image" image)
        calibLoop cv rest (objectPoints, imagePoints)
    else calibLoop cv rest (objectPoints, imagePoints)

/-- A `cv::FileStorage` opened with `cv::FileStorage::WRITE`. -/
structure FileStorage where
  file : Path
  isOpened : Bool
  /-- the element name given by the last text, while its value is awaited -/
  elname : Option String
  entries : List (String × Mat)

/-- Opening for writing: the file is created or emptied; the storage is not
opened when the file cannot be written. -/
def FileStorage.openWrite (file : Path) : Prog FileStorage := do
  let fs ← getFS
  setFS (fs.writeFile file (.storage []))
  pure { file := file, isOpened := fs.canWrite file, elname := none, entries := [] }

/-- The operator `saveFile << "name"`. -/
def FileStorage.putName (s : FileStorage) (name : String) : FileStorage :=
  if s.isOpened then { s with elname := some name } else s

/-- The operator `saveFile << mat`. -/
def FileStorage.putMat (s : FileStorage) (m : Mat) : FileStorage :=
  if s.isOpened then
    match s.elname with
    | some name => { s with elname := none, entries := s.entries ++ [(name, m)] }
    | none => s
  else s

/-- The call `saveFile.release()`: the document reaches the file. -/
def FileStorage.release (s : FileStorage) : Prog Unit := do
  if s.isOpened then
    let fs ← getFS
    setFS (fs.writeFile s.file (.storage s.entries))
    emit (.storageSaved s.file s.entries)
  else pure ()

/-- The file `current_path().string() + "/calibration.xml"`. -/
def calibrationFile (cwd : Path) : Path :=
  cwd ++ ["calibration.xml"]

/-- The function `generateCalibration`; `cwd` is `std::filesystem::current_path()`. -/
def generateCalibration (cv : Vision) (cwd : Path) (imagesPath : Path) : Prog Unit := do
  let entries ← directory_iterator imagesPath
  let sortedFileSet := sortedFileSet entries
  cout "\nPress any key to progress to the next image\n"
  let (objectPoints, imagePoints) ← calibLoop cv sortedFileSet ([], [])
  emit (.calibrateCamera objectPoints imagePoints ⟨1920, 1080⟩)
  match cv.calibrateCamera objectPoints imagePoints ⟨1920, 1080⟩ with
  | .error what => raise (.cv what)
  | .ok r =>
    cout "\n"
    cout "RMS Projection Error: "
    emit (.outNum r.rms)
    cout "\n\n"
    cout "Camera Matrix:\n"
    emit (.outMat r.cameraMatrix)
    cout "\n\n"
    cout "Distortion Coefficients:\n"
    emit (.outMat r.distortionCoeffs)
    cout "\n\n"
    cout "Rotation Vector:\n"
    emit (.outMat r.rotationVector)
    cout "\n\n"
    cout "Translation Vector:\n"
    emit (.outMat r.translationVector)
    cout "\n\n"
    let saveFile ← FileStorage.openWrite (calibrationFile cwd)
    let saveFile := ((((saveFile.putName "Camera-Matrix").putMat r.cameraMatrix).putName
      "Distortion-Coefficients").putMat r.distortionCoeffs)
    saveFile.release

/-! ## `calibratedLiveView` -/

/-- The loop `while (capture.read(frame))` of `calibratedLiveView`. -/
def liveLoop (cv : Vision) (map1 map2 : Mat) : List (Mat × Int) → Prog Unit
  | [] => pure ()
  | (frame, code) :: rest => do
    let remappedFrame := cv.remap frame map1 map2
    emit (.imshow "Calibrated Video" remappedFrame)
    let key := code % 256
    if key = 27 then pure ()
    else liveLoop cv map1 map2 rest

/-- The read `readFile[name] >> mat`: the first entry of that name, an empty
matrix when there is none. -/
def readEntry (entries : List (String × Mat)) (name : String) : Mat :=
  ((entries.find? (fun e => e.1 = name)).map (fun e => e.2)).getD []

/-- The function `calibratedLiveView`; a file is opened by
`cv::FileStorage::READ` when it exists and holds a storage document. -/
def calibratedLiveView (cv : Vision) (cwd : Path) (capture : Camera) : Prog Unit := do
  let fs ← getFS
  match fs.lookup (calibrationFile cwd) with
  | some (.file (.storage entries)) =>
    let cameraMatrix := readEntry entries "Camera-Matrix"
    let distortionCoeffs := readEntry entries "Distortion-Coefficients"
    cout "\n"
    cout "Camera Matrix:\n"
    emit (.outMat cameraMatrix)
    cout "\n\n"
    cout "Distortion Coefficients:\n"
    emit (.outMat distortionCoeffs)
    cout "\n\n"
    let frameSize := capture.frameSize
    let newCameraMatrix := cv.getOptimalNewCameraMatrix cameraMatrix distortionCoeffs frameSize
    emit (.initUndistortRectifyMap cameraMatrix distortionCoeffs newCameraMatrix frameSize)
    let maps := cv.initUndistortRectifyMap cameraMatrix distortionCoeffs newCameraMatrix frameSize
    liveLoop cv maps.1 maps.2 capture.stream
  | _ =>
    cout "Unable to open: calibration.xml\n"

/-! ## `displayHelp` and `main` -/

/-- The function `displayHelp`. -/
def displayHelp (appName : String) : Prog Unit := do
  cout "Invalid arguments, please use:\n"
  cout (appName ++ " -c [#camera] [some-path] -d\n")
  cout (appName ++ " -t [#camera]\n")

/-- The characters `std::isspace` accepts. -/
def isspace (c : Char) : Bool :=
  c = ' ' ∨ c = '\t' ∨ c = '\n' ∨ c = '\x0b' ∨ c = '\x0c' ∨ c = '\r'

/-- The call `std::stoi(s)`: leading white space, an optional sign, then the
longest run of decimal digits; `std::invalid_argument` without a digit,
`std::out_of_range` outside `int`. -/
def stoi (s : String) : Prog Int :=
  let cs := s.data.dropWhile isspace
  let signed : Bool × List Char :=
    match cs with
    | '-' :: r => (true, r)
    | '+' :: r => (false, r)
    | _ => (false, cs)
  let ds := signed.2.takeWhile Char.isDigit
  if ds = [] then raise (.invalid_argument "stoi")
  else
    let n : Nat := ds.foldl (fun a d => 10 * a + (d.toNat - 48)) 0
    let v : Int := if signed.1 then -(n : Int) else n
    if v < -2147483648 ∨ v > 2147483647 then raise (.out_of_range "stoi")
    else pure v

/-- The pieces of a path text between separators. -/
def splitSlash : List Char → List (List Char)
  | [] => [[]]
  | c :: cs =>
    if c = '/' then [] :: splitSlash cs
    else
      match splitSlash cs with
      | [] => [[c]]
      | h :: t => (c :: h) :: t

/-- The path `base /= s`: an absolute `s` replaces `base`, a relative one is
appended; the text is kept as written. -/
def pathAppend (base : Path) (s : String) : Path :=
  let comps := (splitSlash s.data).map String.mk
  if s.data.head? = some '/' then comps else base ++ comps

/-- The test `std::filesystem::is_empty(p)`. -/
def is_empty (p : Path) : Prog Bool := do
  let fs ← getFS
  match fs.lookup p with
  | none => raise (.filesystem_error "is_empty")
  | some .dir => pure (fs.children p).isEmpty
  | some (.file (.bytes [])) => pure true
  | some (.file _) => pure false

/-- The loop `for (auto& subPath : directory_iterator(imagesPath)) remove_all(subPath)`. -/
def removeEntries : List Path → Prog Unit
  | [] => pure ()
  | subPath :: rest => do
    emit (.remove_all subPath)
    let fs ← getFS
    setFS (fs.remove_all subPath)
    removeEntries rest

/-- The end of the `-c` branch of `main` (from the call of
`aquireCalibrationPhotos` to `return 0`), reached on three paths. -/
def acquireAndCalibrate (cv : Vision) (cwd : Path) (arg2 : String) (imagesPath : Path) :
    Prog Int := do
  let cameraIndex ← stoi arg2
  let count ← aquireCalibrationPhotos cv cameraIndex imagesPath
  cout ("Aquired " ++ toString count ++ " calibration images\n")
  tryCatchCv
    (do
      generateCalibration cv cwd imagesPath
      cout "Successfully generated the camera calibration parameters\n")
    (fun what => do
      cout "Unable to generate the camera calibration parameters\n"
      cout ("Reason: " ++ what ++ "\n"))
  pure 0

/-- The conversion `std::string(argv[i])`: `argv` holds the `argc` arguments;
`argv[argc]` is a null pointer and the places after it are outside the array,
so the conversion has undefined behaviour for `i ≥ argc`. -/
def arg (argv : List String) (i : Nat) : Prog String :=
  match argv[i]? with
  | some s => pure s
  | none => undefinedBehaviour

/-- The function `main`; `argc` is the length of `argv`, and `cwd` is
`std::filesystem::current_path()`. -/
def main (cv : Vision) (cwd : Path) (argv : List String) : Prog Int := do
  let argc := argv.length
  let appName ← arg argv 0
  if argc = 1 then
    displayHelp appName
    pure 0
  else do
    let command ← arg argv 1
    if command = "-c" then do
      let arg3 ← arg argv 3
      let imagesPath := pathAppend cwd arg3
      if argc = 4 then do
        let empty ← is_empty imagesPath
        if !empty then
          cout "The calibration images directory "
          emit (.outPath imagesPath)
          cout " is not empty\n"
          cout "Perhaps add the -d option and retry\n"
          pure 0
        else do
          let arg2 ← arg argv 2
          acquireAndCalibrate cv cwd arg2 imagesPath
      else if argc = 5 then do
        let arg4 ← arg argv 4
        if arg4 = "-d" then do
          let entries ← directory_iterator imagesPath
          removeEntries entries
          cout "The existing calibration images in "
          emit (.outPath imagesPath)
          cout " have been deleted\n"
          let arg2 ← arg argv 2
          acquireAndCalibrate cv cwd arg2 imagesPath
        else do
          displayHelp appName
          pure 0
      else do
        let arg2 ← arg argv 2
        acquireAndCalibrate cv cwd arg2 imagesPath
    else if argc = 3 ∧ command = "-t" then do
      let arg2 ← arg argv 2
      let cameraIndex ← stoi arg2
      emit (.openCapture cameraIndex)
      let capture := cv.camera cameraIndex
      if !capture.isOpened then
        cout ("Failed to open the video stream for camera #" ++ toString cameraIndex ++ "\n")
        pure 0
      else do
        calibratedLiveView cv cwd capture
        pure 0
    else do
      displayHelp appName
      pure 0

/-! ## Reading a key stream (used to state what the acquisition loop does) -/

/-- The `cv::imread` calls of a trace, in order: the images processed. -/
def processed (t : List Event) : List Path :=
  t.filterMap (fun e => match e with
    | .imread f => some f
    | _ => none)

/-- The test of the image loop: a regular file whose name ends in `.png`. -/
def isCandidate (fs : FS) (p : Path) : Bool :=
  is_regular_file fs p && endsWith (filename p) ".png"

/-- The refined corners of the image at `p`, when the detector finds the pattern. -/
def foundCorners (cv : Vision) (fs : FS) (p : Path) : Option (List Point2f) :=
  (cv.findChessboardCorners (cv.cvtColor (imread fs p)) patternSize).map
    (cv.cornerSubPix (cv.cvtColor (imread fs p)))

/-- The corner lists of the images of `ps` on which detection succeeds. -/
def hits (cv : Vision) (fs : FS) (ps : List Path) : List (List Point2f) :=
  (ps.filter (isCandidate fs)).filterMap (foundCorners cv fs)

/-- The console report of a calibration result. -/
def reportEvents (r : Calibration) : List Event :=
  [.out "\n", .out "RMS Projection Error: ", .outNum r.rms, .out "\n\n",
   .out "Camera Matrix:\n", .outMat r.cameraMatrix, .out "\n\n",
   .out "Distortion Coefficients:\n", .outMat r.distortionCoeffs, .out "\n\n",
   .out "Rotation Vector:\n", .outMat r.rotationVector, .out "\n\n",
   .out "Translation Vector:\n", .outMat r.translationVector, .out "\n\n"]

/-- The two entries the calibration file is given. -/
def calibrationEntries (r : Calibration) : List (String × Mat) :=
  [("Camera-Matrix", r.cameraMatrix), ("Distortion-Coefficients", r.distortionCoeffs)]

/-- The names acquisition gives its first `n` images, in acquisition order. -/
def acquiredNames (n : Nat) : List String :=
  (List.range' 1 n).map (fun i => imageName (i : Nat))

/-- Whether `cv::imread` gets no image out of the file at `p`. -/
def undecodable (fs : FS) (p : Path) : Bool :=
  matEmpty (imread fs p)

/-- The elements of a list up to and including the first one that satisfies
`stop`. -/
def takeThrough {α : Type} (stop : α → Bool) : List α → List α
  | [] => []
  | a :: l => if stop a then [a] else a :: takeThrough stop l

/-- Whether the detector finds the pattern in the image at `p`. -/
def detected (cv : Vision) (fs : FS) (p : Path) : Bool :=
  (cv.findChessboardCorners (cv.cvtColor (imread fs p)) patternSize).isSome

/-- The `cv::calibrateCamera` calls of a trace, in order, with their arguments. -/
def solverCalls (t : List Event) : List (List (List Point3f) × List (List Point2f) × Size) :=
  t.filterMap (fun e => match e with
    | .calibrateCamera o i sz => some (o, i, sz)
    | _ => none)

/-- The state the two accumulators are to be in after the paths `ps` went
through the image loop: equal lengths, one entry per processed
image on which detection succeeded, every object entry the grid `objP`, every
image entry of 104 points. -/
def AccumulatorsOk (cv : Vision) (fs : FS) (ps : List Path)
    (objectPoints : List (List Point3f)) (imagePoints : List (List Point2f)) : Prop :=
  objectPoints.length = imagePoints.length ∧
  imagePoints.length = ((ps.filter (isCandidate fs)).filter (detected cv fs)).length ∧
  (∀ g ∈ objectPoints, g = objP) ∧
  (∀ c ∈ imagePoints, c.length = 104)

/-- The world a computation ends in, if it has one. -/
def Outcome.world? {α : Type} : Outcome α → Option World
  | .done _ w => some w
  | .exit _ w => some w
  | .throw _ w => some w
  | .undefined => none

/-- An event that is no solver call, no saved storage and no success message. -/
def quiet (e : Event) : Bool :=
  match e with
  | .out s => s ≠ "Successfully generated the camera calibration parameters\n"
  | .calibrateCamera _ _ _ => false
  | .storageSaved _ _ => false
  | _ => true

/-- A camera that opens and delivers the given stream. -/
def cameraWith (stream : List (Mat × Int)) : Camera :=
  { isOpened := true, frameSize := ⟨640, 480⟩, stream := stream }

/-- A library whose every camera is `c`, that finds no chessboard and whose
solver refuses. -/
def visionWith (c : Camera) : Vision :=
  { camera := fun _ => c
    cvtColor := fun m => m
    findChessboardCorners := fun _ _ => none
    cornerSubPix := fun _ cs => cs
    drawChessboardCorners := fun m _ _ => m
    calibrateCamera := fun _ _ _ => .error "nimages > 0"
    getOptimalNewCameraMatrix := fun m _ _ => m
    initUndistortRectifyMap := fun _ _ _ _ => ([], [])
    remap := fun m _ _ => m }

/-- A camera that does not open. -/
def closedCamera : Camera :=
  { isOpened := false, frameSize := ⟨0, 0⟩, stream := [] }

/-- A file system in which `/work/imgs` holds a file and a directory with a
file, next to a calibration file and a file outside the working directory. -/
def fsOldImages : FS :=
  ⟨[([], .dir), (["work"], .dir), (["work", "imgs"], .dir),
    (["work", "imgs", "old.png"], .file (.bytes [1])),
    (["work", "imgs", "sub"], .dir),
    (["work", "imgs", "sub", "deep.png"], .file (.bytes [2])),
    (["work", "calibration.xml"], .file (.storage [])),
    (["home"], .dir),
    (["home", "keep.txt"], .file (.bytes [3]))]⟩

/-- A file system whose `/work/imgs` holds, in this table order, `b.png`,
`notes.txt`, a directory `dir.png`, `a.png`, `A.PNG` and `png`. -/
def fsMixedEntries : FS :=
  ⟨[([], .dir), (["work"], .dir), (["work", "imgs"], .dir),
    (["work", "imgs", "b.png"], .file (.image [[2]])),
    (["work", "imgs", "notes.txt"], .file (.bytes [1])),
    (["work", "imgs", "dir.png"], .dir),
    (["work", "imgs", "a.png"], .file (.image [[1]])),
    (["work", "imgs", "A.PNG"], .file (.image [[3]])),
    (["work", "imgs", "png"], .file (.image [[4]]))]⟩

/-- A file system whose `/work/imgs` holds the ten images of an acquisition,
listed in some other order. -/
def fsTenImages : FS :=
  ⟨[([], .dir), (["work"], .dir), (["work", "imgs"], .dir)] ++
    ([3, 10, 1, 7, 2, 9, 4, 6, 5, 8].map
      (fun i => (["work", "imgs", imageName (i : Nat)], Node.file (.image [[(i : Nat)]]))))⟩

/-- A library that finds a pattern (104 corners at the origin) exactly in the
images whose first element is positive, and whose solver answers with fixed
matrices. -/
def visionFinding : Vision :=
  { camera := fun _ => closedCamera
    cvtColor := fun m => m
    findChessboardCorners := fun m _ =>
      if 0 < (m.head?.getD []).head?.getD 0 then some (List.replicate 104 ⟨0, 0⟩) else none
    cornerSubPix := fun _ cs => cs
    drawChessboardCorners := fun m _ _ => m
    calibrateCamera := fun _ _ _ =>
      .ok { rms := 1, cameraMatrix := [[900, 0, 960], [0, 900, 540], [0, 0, 1]],
            distortionCoeffs := [[1, 2, 3, 4, 5]], rotationVector := [], translationVector := [] }
    getOptimalNewCameraMatrix := fun m _ _ => m
    initUndistortRectifyMap := fun _ _ _ _ => ([], [])
    remap := fun m _ _ => m }

/-- A file system whose `/work/imgs` holds an image with a pattern, one without
and a text file. -/
def fsTwoImages : FS :=
  ⟨[([], .dir), (["work"], .dir), (["work", "imgs"], .dir),
    (["work", "imgs", "calibration_image_1.png"], .file (.image [[1]])),
    (["work", "imgs", "calibration_image_2.png"], .file (.image [[0]])),
    (["work", "imgs", "notes.txt"], .file (.bytes [1]))]⟩

/-- The two images again, next to a calibration file from an earlier run. -/
def fsOldCalibration : FS :=
  ⟨fsTwoImages.nodes ++
    [(["work", "calibration.xml"], .file (.storage [("Camera-Matrix", [[7]]), ("Extra", [[8]])]))]⟩

/-- The world in which a run of `generateCalibration` on the two images ends. -/
def worldAfterCalibration : World :=
  ((generateCalibration visionFinding ["work"] ["work", "imgs"]
    ⟨fsOldCalibration, []⟩).world?).getD ⟨fsOldCalibration, []⟩

/-- An empty `/work/imgs` next to a calibration file from an earlier run. -/
def fsOldCalibrationEmptyImgs : FS :=
  ⟨[([], .dir), (["work"], .dir), (["work", "imgs"], .dir),
    (["work", "calibration.xml"], .file (.storage [("Camera-Matrix", [[7]])]))]⟩

/-- The world in which `app -c 0 imgs` ends when three images are confirmed, no
pattern is found in any of them and the solver refuses. -/
def worldAfterFailedRun : World :=
  ((main (visionWith (cameraWith [([[1]], 13), ([[2]], 13), ([[3]], 13), ([[4]], 27)]))
      ["work"] ["app", "-c", "0", "imgs"] ⟨fsOldCalibrationEmptyImgs, []⟩).world?).getD
    ⟨fsOldCalibrationEmptyImgs, []⟩

/-- A file system holding the working directory `/work` and an empty `/work/imgs`. -/
def fsEmptyImgs : FS :=
  ⟨[([], .dir), (["work"], .dir), (["work", "imgs"], .dir)]⟩


/-- A file system whose `/work/imgs` holds `a_junk.png`, a file `cv::imread`
cannot decode, and `b_good.png`, an image. -/
def fsJunkFirst : FS :=
  ⟨[([], .dir), (["work"], .dir), (["work", "imgs"], .dir),
    (["work", "imgs", "a_junk.png"], .file (.bytes [1])),
    (["work", "imgs", "b_good.png"], .file (.image [[1]]))]⟩

/-! # Theorems -/

/-! ## The computation monad -/

@[simp] theorem pure_run {α : Type} (a : α) (w : World) :
    (pure a : Prog α) w = .done a w := rfl

theorem bind_run {α β : Type} (x : Prog α) (f : α → Prog β) (w : World) :
    (x >>= f) w = match x w with
      | .done a w1 => f a w1
      | .exit s w1 => .exit s w1
      | .throw e w1 => .throw e w1
      | .undefined => .undefined := rfl

@[simp] theorem emit_bind_run {β : Type} (e : Event) (f : Unit → Prog β) (w : World) :
    (emit e >>= f) w = f () { w with trace := w.trace ++ [e] } := rfl

@[simp] theorem cout_bind_run {β : Type} (s : String) (f : Unit → Prog β) (w : World) :
    (cout s >>= f) w = f () { w with trace := w.trace ++ [.out s] } := rfl

@[simp] theorem imwrite_bind_run {β : Type} (p : Path) (m : Mat) (f : Unit → Prog β) (w : World) :
    (imwrite p m >>= f) w =
      f () { fs := w.fs.writeFile p (.image m), trace := w.trace ++ [.imwrite p m] } := rfl

@[simp] theorem undefinedBehaviour_run {α : Type} (w : World) :
    (undefinedBehaviour : Prog α) w = .undefined := rfl

/-! ## Acquisition -/

theorem aquireLoop_nil (d : Path) (count : Int) (w : World) :
    aquireLoop d [] count w = .done count w := rfl

theorem aquireLoop_cons (d : Path) (frame : Mat) (code : Int) (rest : List (Mat × Int))
    (count : Int) (w : World) :
    aquireLoop d ((frame, code) :: rest) count w =
      (if code % 256 = 27 then
        .done count { w with trace := w.trace ++ [.imshow "Calibration Image" frame] }
      else if code % 256 = 13 then
        if count = INT32_MAX then .undefined
        else aquireLoop d rest (count + 1)
          { fs := w.fs.writeFile (d ++ [imageName (count + 1)]) (.image frame),
            trace := w.trace ++ [.imshow "Calibration Image" frame] ++
              [.imwrite (d ++ [imageName (count + 1)]) frame] ++
              [.out ("Image grabbed #" ++ toString (count + 1) ++ "\n")] }
      else aquireLoop d rest count
        { w with trace := w.trace ++ [.imshow "Calibration Image" frame] }) := by
  simp only [aquireLoop, emit_bind_run]
  split_ifs <;> simp

theorem bind_done {α β : Type} {x : Prog α} {f : α → Prog β} {w w1 : World} {a : α}
    (h : x w = .done a w1) : (x >>= f) w = f a w1 := by
  rw [bind_run, h]

theorem bind_pure_run {α : Type} (x : Prog α) (w : World) :
    (x >>= fun a => (pure a : Prog α)) w = x w := by
  rw [bind_run]
  cases x w <;> rfl

theorem aquireCalibrationPhotos_opened (cv : Vision) (cameraIndex : Int) (d : Path) (w : World)
    (hopen : (cv.camera cameraIndex).isOpened = true) :
    aquireCalibrationPhotos cv cameraIndex d w =
      aquireLoop d (cv.camera cameraIndex).stream 0
        { w with trace := w.trace ++ [.openCapture cameraIndex] ++
          [.out "Hit RETURN to grab an image, ESC to quit...\n"] } := by
  simp only [aquireCalibrationPhotos, emit_bind_run, hopen, Bool.not_true, Bool.false_eq_true,
    if_false, cout_bind_run]
  exact bind_pure_run _ _

theorem aquireCalibrationPhotos_closed (cv : Vision) (cameraIndex : Int) (d : Path) (w : World)
    (hopen : (cv.camera cameraIndex).isOpened = false) :
    aquireCalibrationPhotos cv cameraIndex d w =
      .exit 0 { w with trace := w.trace ++ [.openCapture cameraIndex] ++
          [.out ("Failed to open the video stream for camera #" ++ toString cameraIndex ++ "\n")] } := by
  simp only [aquireCalibrationPhotos, emit_bind_run, hopen, Bool.not_false, if_true,
    cout_bind_run]
  rfl

theorem isUnder_iff (d p : Loc) : isUnder d p = true ↔ d <+: p := by
  simp [isUnder]

theorem isChild_iff (d p : Loc) :
    isChild d p = true ↔ p ≠ [] ∧ p.dropLast = d ∧ isName (filename p) = true := by
  simp [isChild]

theorem isBelow_iff (d p : Loc) : isBelow d p = true ↔ d <+: p ∧ p ≠ d := by
  simp [isBelow, isUnder]

theorem isChild_isBelow (d p : Loc) (h : isChild d p = true) : isBelow d p = true := by
  rw [isChild_iff] at h
  rw [isBelow_iff]
  obtain ⟨hne, hd, _⟩ := h
  subst hd
  refine ⟨List.dropLast_prefix p, ?_⟩
  intro heq
  have hl := congrArg List.length heq
  rw [List.length_dropLast] at hl
  have : 0 < p.length := List.length_pos.2 hne
  omega

theorem filename_child (d : Path) (name : String) : filename (d ++ [name]) = name := by
  simp [filename]

theorem child_eq (d a : Loc) (h : isChild d a = true) : a = d ++ [filename a] := by
  rw [isChild_iff] at h
  obtain ⟨hne, hd, _⟩ := h
  have h1 := List.dropLast_append_getLast hne
  rw [hd] at h1
  have h2 : filename a = a.getLast hne := by
    unfold filename
    rw [List.getLast?_eq_getLast a hne]
    rfl
  rw [h2, h1]

/-- A location below `d` lies under a location directly in `d`. -/
theorem above_of_below (d q : Loc) (h : isBelow d q = true) :
    ∃ c : Loc, c ≠ [] ∧ c.dropLast = d ∧ c <+: q := by
  rw [isBelow_iff] at h
  obtain ⟨⟨t, rfl⟩, hne⟩ := h
  cases t with
  | nil => simp at hne
  | cons x t =>
    refine ⟨d ++ [x], by simp, by simp, ?_⟩
    exact ⟨t, by simp⟩

/-- In a tree every proper ancestor of a node is an existing directory. -/
theorem closed_ancestor (fs : FS) (hc : fs.Closed) :
    ∀ (n : Nat) (q : Loc) (x : Node), q.length = n → (q, x) ∈ fs.nodes →
      ∀ r : Loc, r <+: q → r ≠ q → (r, Node.dir) ∈ fs.nodes := by
  intro n
  induction n with
  | zero =>
    intro q x hlen _ r hr hne
    have hq : q = [] := List.length_eq_zero.1 hlen
    subst hq
    exact absurd (List.prefix_nil.1 hr) hne
  | succ n ih =>
    intro q x hlen hmem r hr hne
    have hq : q ≠ [] := by
      intro h; rw [h] at hlen; simp at hlen
    have hpar : (q.dropLast, Node.dir) ∈ fs.nodes := (hc (q, x) hmem hq).1
    by_cases hrd : r = q.dropLast
    · rw [hrd]; exact hpar
    · have hlt : r.length < q.length := by
        rcases Nat.lt_or_ge r.length q.length with h | h
        · exact h
        · exact absurd (hr.eq_of_length (Nat.le_antisymm hr.length_le h)) hne
      have hle : r.length ≤ q.dropLast.length := by
        rw [List.length_dropLast]; omega
      have hpre : r <+: q.dropLast :=
        List.prefix_of_prefix_length_le hr (List.dropLast_prefix q) hle
      exact ih q.dropLast Node.dir (by rw [List.length_dropLast]; omega) hpar r hpre hrd

theorem removeEachAt_nodes (cs : List Loc) :
    ∀ fs : FS, (fs.removeEachAt cs).nodes =
      fs.nodes.filter (fun e => cs.all (fun c => !(isUnder c e.1))) := by
  induction cs with
  | nil => intro fs; simp [FS.removeEachAt]
  | cons c cs ih =>
    intro fs
    have h := ih (fs.removeAt c)
    simp only [FS.removeEachAt, List.foldl_cons] at h ⊢
    rw [h]
    simp only [FS.removeAt, List.filter_filter, List.all_cons]
    congr 1
    funext e
    rw [Bool.and_comm]

theorem removeEachAt_concat (fs : FS) (cs : List Loc) (c : Loc) :
    fs.removeEachAt (cs ++ [c]) = (fs.removeEachAt cs).removeAt c := by
  simp [FS.removeEachAt, List.foldl_append]

theorem node_eq_none_iff (fs : FS) (q : Loc) :
    fs.node q = none ↔ ∀ e ∈ fs.nodes, e.1 ≠ q := by
  unfold FS.node
  rw [Option.map_eq_none', List.find?_eq_none]
  constructor
  · intro h e he heq
    exact h e he (decide_eq_true heq)
  · intro h e he heq
    exact h e he (of_decide_eq_true heq)

theorem find_filter_of_imp {α : Type} (P Q : α → Bool) (hPQ : ∀ x, P x = true → Q x = true) :
    ∀ l : List α, (l.filter Q).find? P = l.find? P := by
  intro l
  induction l with
  | nil => rfl
  | cons a l ih =>
    by_cases hQ : Q a = true
    · rw [List.filter_cons_of_pos hQ]
      by_cases hP : P a = true
      · rw [List.find?_cons_of_pos _ hP, List.find?_cons_of_pos _ hP]
      · rw [List.find?_cons_of_neg _ hP, List.find?_cons_of_neg _ hP, ih]
    · rw [List.filter_cons_of_neg hQ]
      have hP : ¬ P a = true := fun h => hQ (hPQ a h)
      rw [List.find?_cons_of_neg _ hP, ih]

/-- The node at a location after some locations were taken out of the table. -/
theorem node_filter (fs : FS) (keep : Loc → Bool) (q : Loc) :
    (FS.mk (fs.nodes.filter (fun e => keep e.1))).node q =
      if keep q then fs.node q else none := by
  by_cases h : keep q = true
  · rw [if_pos h]
    unfold FS.node
    rw [find_filter_of_imp]
    intro e he
    have heq : e.1 = q := by simpa using he
    rw [heq]
    exact h
  · rw [if_neg h, node_eq_none_iff]
    intro e he heq
    have := (List.mem_filter.1 he).2
    rw [heq] at this
    exact h this

theorem mem_entriesAt_iff (fs : FS) (d c : Loc) :
    c ∈ fs.entriesAt d ↔ (∃ x, (c, x) ∈ fs.nodes) ∧ isChild d c = true := by
  simp only [FS.entriesAt, List.mem_map, List.mem_filter]
  constructor
  · intro h
    obtain ⟨e, hmem, heq⟩ := h
    obtain ⟨he, hch⟩ := hmem
    rw [heq] at hch
    refine ⟨⟨e.2, ?_⟩, hch⟩
    rw [← heq]
    exact he
  · intro h
    obtain ⟨hx, hch⟩ := h
    obtain ⟨x, hx⟩ := hx
    exact ⟨(c, x), ⟨hx, hch⟩, rfl⟩

/-- Removing nodes in `d` leaves every location not below `d` as it is. -/
theorem node_removeEachAt_keep (fs : FS) (d : Loc) (cs : List Loc)
    (hcs : ∀ c ∈ cs, isChild d c = true) (q : Loc) (hq : isBelow d q = false) :
    (fs.removeEachAt cs).node q = fs.node q := by
  have hn := removeEachAt_nodes cs fs
  have e : fs.removeEachAt cs =
      FS.mk (fs.nodes.filter (fun e => cs.all (fun c => !(isUnder c e.1)))) := by
    cases h : fs.removeEachAt cs with
    | mk nodes => rw [h] at hn; simp only at hn; rw [hn]
  rw [e, node_filter fs (fun l => cs.all (fun c => !(isUnder c l))) q]
  have hkeep : cs.all (fun c => !(isUnder c q)) = true := by
    rw [List.all_eq_true]
    intro c hc
    have hcb := isChild_isBelow d c (hcs c hc)
    rw [isBelow_iff] at hcb
    by_contra hcon
    have hu : c <+: q := by
      rw [← isUnder_iff]
      simpa using hcon
    have hdq : isBelow d q = true := by
      rw [isBelow_iff]
      refine ⟨hcb.1.trans hu, ?_⟩
      intro hqd
      rw [hqd] at hu
      exact hcb.2 (hu.eq_of_length (Nat.le_antisymm hu.length_le hcb.1.length_le))
    rw [hq] at hdq
    exact Bool.false_ne_true hdq
  rw [if_pos hkeep]

/-- What is left of a tree when the entries of the directory at `d` are removed. -/
theorem removeEachAt_entries (fs : FS) (d : Loc) (hc : fs.Closed)
    (hd : fs.isDirAt d = true) :
    (fs.removeEachAt (fs.entriesAt d)).isDirAt d = true ∧
    (fs.removeEachAt (fs.entriesAt d)).entriesAt d = [] ∧
    (∀ q, isBelow d q = true → (fs.removeEachAt (fs.entriesAt d)).node q = none) ∧
    (∀ q, isBelow d q = false → (fs.removeEachAt (fs.entriesAt d)).node q = fs.node q) := by
  have hbelow : ∀ q, isBelow d q = true →
      (fs.removeEachAt (fs.entriesAt d)).node q = none := by
    intro q hq
    rw [node_eq_none_iff]
    intro e he heq
    rw [removeEachAt_nodes, List.mem_filter, List.all_eq_true] at he
    obtain ⟨hmem, hall⟩ := he
    obtain ⟨c, hcne, hcd, hpre⟩ := above_of_below d q hq
    have hcn : ∃ x, (c, x) ∈ fs.nodes := by
      by_cases hcq : c = q
      · exact ⟨e.2, by rw [hcq, ← heq]; exact hmem⟩
      · exact ⟨_, closed_ancestor fs hc q.length q e.2 rfl (by rw [← heq]; exact hmem)
          c hpre hcq⟩
    obtain ⟨x, hx⟩ := hcn
    have hname : isName (filename c) = true := (hc (c, x) hx hcne).2
    have hcmem : c ∈ fs.entriesAt d := by
      rw [mem_entriesAt_iff]
      exact ⟨⟨x, hx⟩, (isChild_iff d c).2 ⟨hcne, hcd, hname⟩⟩
    have := hall c hcmem
    rw [heq] at this
    have hu : isUnder c q = true := (isUnder_iff c q).2 hpre
    simp [hu] at this
  have hkeep : ∀ q, isBelow d q = false →
      (fs.removeEachAt (fs.entriesAt d)).node q = fs.node q :=
    fun q hq => node_removeEachAt_keep fs d _
      (fun c hcm => ((mem_entriesAt_iff fs d c).1 hcm).2) q hq
  have hself : isBelow d d = false := by
    simp [isBelow]
  refine ⟨?_, ?_, hbelow, hkeep⟩
  · unfold FS.isDirAt at hd ⊢
    rw [hkeep d hself]
    exact hd
  · rw [List.eq_nil_iff_forall_not_mem]
    intro c hcmem
    rw [mem_entriesAt_iff] at hcmem
    obtain ⟨⟨x, hx⟩, hch⟩ := hcmem
    have := hbelow c (isChild_isBelow d c hch)
    rw [node_eq_none_iff] at this
    exact this (c, x) hx rfl

theorem node_writeAt_same (fs : FS) (l : Loc) (c : Content)
    (h : fs.canWriteAt l = true) : (fs.writeAt l c).node l = some (.file c) := by
  unfold FS.writeAt FS.node
  rw [if_pos h]
  show Option.map _ (List.find? _ (List.filter (fun e => decide (e.1 ≠ l)) fs.nodes ++
    [(l, Node.file c)])) = _
  rw [List.find?_append]
  have hnone : List.find? (fun e => decide (e.1 = l))
      (List.filter (fun e : Loc × Node => decide (e.1 ≠ l)) fs.nodes) = none := by
    rw [List.find?_eq_none]
    intro e he
    have := (List.mem_filter.1 he).2
    simpa using this
  rw [hnone, Option.none_or]
  simp

theorem node_writeAt_other (fs : FS) (l q : Loc) (c : Content) (hq : q ≠ l) :
    (fs.writeAt l c).node q = fs.node q := by
  unfold FS.writeAt
  by_cases h : fs.canWriteAt l = true
  · rw [if_pos h]
    unfold FS.node
    show Option.map _ (List.find? _ (List.filter (fun e => decide (e.1 ≠ l)) fs.nodes ++
      [(l, Node.file c)])) = _
    rw [List.find?_append]
    have hlast : List.find? (fun e : Loc × Node => decide (e.1 = q)) [(l, Node.file c)] = none := by
      rw [List.find?_eq_none]
      intro e he
      rw [List.mem_singleton] at he
      rw [he]
      simpa using fun h2 : l = q => hq h2.symm
    rw [hlast, Option.or_none, find_filter_of_imp]
    intro e he
    have heq : e.1 = q := by simpa using he
    simpa [heq] using hq
  · rw [if_neg h]

/-- Writing a regular file changes no directory. -/
theorem isDirAt_writeAt (fs : FS) (l : Loc) (c : Content) (v : Loc) :
    (fs.writeAt l c).isDirAt v = fs.isDirAt v := by
  by_cases hv : v = l
  · subst hv
    by_cases h : fs.canWriteAt v = true
    · have h1 := node_writeAt_same fs v c h
      have h2 : fs.isDirAt v = false := by
        simp only [FS.canWriteAt, Bool.decide_and, Bool.and_eq_true, decide_eq_true_eq,
          decide_not, Bool.not_eq_true', ne_eq] at h
        simpa using h.2.2
      unfold FS.isDirAt at h2 ⊢
      rw [h1, h2]
      simp
    · unfold FS.writeAt
      rw [if_neg h]
  · unfold FS.isDirAt
    rw [node_writeAt_other fs l v c hv]

theorem canWriteAt_writeAt (fs : FS) (l : Loc) (c : Content) (h : fs.canWriteAt l = true) :
    (fs.writeAt l c).canWriteAt l = true := by
  unfold FS.canWriteAt at h ⊢
  simp only [isDirAt_writeAt]
  exact h

/-! ## The file system, by path text -/

theorem step_name (l : Loc) (c : String) (h : isName c = true) : step l c = l ++ [c] := by
  simp only [isName, Bool.decide_and, Bool.and_eq_true, decide_eq_true_eq, ne_eq,
    decide_not, Bool.not_eq_true', decide_eq_false_iff_not] at h
  unfold step
  rw [if_neg (by rintro (h1 | h1); exact h.1 h1; exact h.2.1 h1), if_neg h.2.2]

theorem walk_append (fs : FS) (a b : Path) :
    ∀ l : Loc, fs.walk l (a ++ b) = (fs.walk l a).bind (fun m => fs.walk m b) := by
  induction a with
  | nil => intro l; rfl
  | cons c a ih =>
    intro l
    simp only [List.cons_append, FS.walk]
    by_cases h : fs.isDirAt l = true
    · rw [if_pos h, if_pos h]
      exact ih _
    · rw [if_neg h, if_neg h]
      rfl

/-- Two file systems with the same directories on the trail walk alike. -/
theorem walk_congr (fs fs' : FS) (p : Path) :
    ∀ l : Loc, (∀ v ∈ fs.trail l p, fs'.isDirAt v = fs.isDirAt v) →
      fs'.walk l p = fs.walk l p := by
  induction p with
  | nil => intro l _; rfl
  | cons c p ih =>
    intro l h
    have hl : fs'.isDirAt l = fs.isDirAt l := h l (by simp [FS.trail])
    simp only [FS.walk, hl]
    by_cases hd : fs.isDirAt l = true
    · rw [if_pos hd, if_pos hd]
      apply ih
      intro v hv
      apply h
      simp only [FS.trail, hd, if_true, List.mem_cons]
      exact Or.inr hv
    · rw [if_neg hd, if_neg hd]

theorem walk_eq_of_dirs (fs fs' : FS) (h : ∀ v, fs'.isDirAt v = fs.isDirAt v) (p : Path)
    (l : Loc) : fs'.walk l p = fs.walk l p :=
  walk_congr fs fs' p l (fun v _ => h v)

theorem locate_child (fs : FS) (p : Path) (l : Loc) (name : String)
    (hl : fs.locate p = some l) (hd : fs.isDirAt l = true) (hn : isName name = true) :
    fs.locate (p ++ [name]) = some (l ++ [name]) := by
  unfold FS.locate at hl ⊢
  rw [walk_append, hl]
  simp [FS.walk, hd, step_name l name hn]

theorem locate_child_inv (fs : FS) (p : Path) (name : String) (q : Loc)
    (hn : isName name = true) (h : fs.locate (p ++ [name]) = some q) :
    ∃ l, fs.locate p = some l ∧ fs.isDirAt l = true ∧ q = l ++ [name] := by
  unfold FS.locate at h ⊢
  rw [walk_append] at h
  cases hw : fs.walk [] p with
  | none => rw [hw] at h; simp at h
  | some l =>
    rw [hw] at h
    simp only [Option.some_bind, FS.walk] at h
    by_cases hd : fs.isDirAt l = true
    · rw [if_pos hd, step_name l name hn] at h
      exact ⟨l, rfl, hd, (Option.some.inj h).symm⟩
    · rw [if_neg hd] at h
      exact absurd h (by simp)

theorem isDir_iff (fs : FS) (p : Path) :
    fs.isDir p = true ↔ ∃ l, fs.locate p = some l ∧ fs.isDirAt l = true := by
  unfold FS.isDir FS.lookup FS.isDirAt
  cases fs.locate p with
  | none => simp
  | some l => simp

theorem children_of_locate (fs : FS) (p : Path) (l : Loc) (h : fs.locate p = some l) :
    fs.children p = (fs.entriesAt l).map (fun c => p ++ [filename c]) := by
  simp [FS.children, h]

/-- The node an entry path of a directory denotes. -/
theorem lookup_entry (fs : FS) (p : Path) (l c : Loc) (h : fs.locate p = some l)
    (hd : fs.isDirAt l = true) (hc : isChild l c = true) :
    fs.locate (p ++ [filename c]) = some c ∧ fs.lookup (p ++ [filename c]) = fs.node c := by
  have hn : isName (filename c) = true := ((isChild_iff l c).1 hc).2.2
  have hloc := locate_child fs p l (filename c) h hd hn
  rw [← child_eq l c hc] at hloc
  refine ⟨hloc, ?_⟩
  unfold FS.lookup
  rw [hloc]
  rfl

theorem within_refl (fs : FS) : fs.Within fs :=
  ⟨fun _ => true, by simp⟩

theorem within_trans (a b c : FS) (h1 : a.Within b) (h2 : b.Within c) : a.Within c := by
  obtain ⟨k1, e1⟩ := h1
  obtain ⟨k2, e2⟩ := h2
  refine ⟨fun l => k2 l && k1 l, ?_⟩
  rw [e1, e2, List.filter_filter]
  congr 1
  funext e
  rw [Bool.and_comm]

theorem within_remove_all (fs : FS) (p : Path) : (fs.remove_all p).Within fs := by
  unfold FS.remove_all
  cases fs.locate p with
  | none => exact within_refl fs
  | some l => exact ⟨fun q => !(isUnder l q), rfl⟩

theorem node_within (fs' fs : FS) (h : fs'.Within fs) (q : Loc) :
    fs'.node q = fs.node q ∨ fs'.node q = none := by
  obtain ⟨keep, e⟩ := h
  have e2 : fs' = FS.mk (fs.nodes.filter (fun e => keep e.1)) := by
    cases fs' with
    | mk nodes => simp only at e; rw [e]
  rw [e2, node_filter fs keep q]
  by_cases hk : keep q = true
  · rw [if_pos hk]; exact Or.inl rfl
  · rw [if_neg hk]; exact Or.inr rfl

theorem walk_within (fs' fs : FS) (h : fs'.Within fs) (p : Path) :
    ∀ l : Loc, fs'.walk l p = fs.walk l p ∨ fs'.walk l p = none := by
  induction p with
  | nil => intro l; exact Or.inl rfl
  | cons c p ih =>
    intro l
    simp only [FS.walk]
    by_cases hd' : fs'.isDirAt l = true
    · have hd : fs.isDirAt l = true := by
        unfold FS.isDirAt at hd' ⊢
        rcases node_within fs' fs h l with h1 | h1
        · rw [← h1]; exact hd'
        · rw [h1] at hd'; simp at hd'
      rw [if_pos hd', if_pos hd]
      exact ih (step l c)
    · rw [if_neg hd']
      exact Or.inr rfl

/-- After removals a path denotes what it denoted, or nothing. -/
theorem lookup_within (fs' fs : FS) (h : fs'.Within fs) (p : Path) :
    fs'.lookup p = fs.lookup p ∨ fs'.lookup p = none := by
  unfold FS.lookup FS.locate
  rcases walk_within fs' fs h p [] with h1 | h1
  · rw [h1]
    cases fs.walk [] p with
    | none => exact Or.inl rfl
    | some l =>
      simp only [Option.some_bind]
      exact node_within fs' fs h l
  · rw [h1]
    exact Or.inr rfl

theorem locate_writeFile (fs : FS) (p q : Path) (c : Content) :
    (fs.writeFile p c).locate q = fs.locate q := by
  unfold FS.writeFile
  cases fs.locate p with
  | none => rfl
  | some l => exact walk_eq_of_dirs fs _ (isDirAt_writeAt fs l c) q []

theorem lookup_writeFile_same (fs : FS) (p : Path) (c : Content)
    (h : fs.canWrite p = true) : (fs.writeFile p c).lookup p = some (.file c) := by
  have hloc := locate_writeFile fs p p c
  unfold FS.lookup
  rw [hloc]
  unfold FS.canWrite at h
  unfold FS.writeFile
  cases hl : fs.locate p with
  | none => rw [hl] at h; simp at h
  | some l =>
    rw [hl] at h
    simp only [Option.some_bind]
    exact node_writeAt_same fs l c h

theorem canWrite_writeFile (fs : FS) (p : Path) (c : Content) (h : fs.canWrite p = true) :
    (fs.writeFile p c).canWrite p = true := by
  have hloc := locate_writeFile fs p p c
  unfold FS.canWrite at h ⊢
  rw [hloc]
  unfold FS.writeFile
  cases hl : fs.locate p with
  | none => rw [hl] at h; simp at h
  | some l =>
    rw [hl] at h
    exact canWriteAt_writeAt fs l c h

theorem writeFile_of_not_canWrite (fs : FS) (p : Path) (c : Content)
    (h : ¬ fs.canWrite p = true) : fs.writeFile p c = fs := by
  unfold FS.canWrite at h
  unfold FS.writeFile
  cases hl : fs.locate p with
  | none => rfl
  | some l =>
    rw [hl] at h
    have h2 : ¬ fs.canWriteAt l = true := h
    show fs.writeAt l c = fs
    unfold FS.writeAt
    rw [if_neg h2]

/-- Writing the file `p` changes the node at the location `p` denotes only. -/
theorem node_writeFile_other (fs : FS) (p : Path) (c : Content) (q : Loc)
    (hq : fs.locate p ≠ some q) : (fs.writeFile p c).node q = fs.node q := by
  unfold FS.writeFile
  cases hl : fs.locate p with
  | none => rfl
  | some l =>
    rw [hl] at hq
    exact node_writeAt_other fs l q c (fun h => hq (by rw [h]))

/-- Writing a file named `name` leaves what a path with another last name denotes. -/
theorem lookup_writeFile_other_name (fs : FS) (p q : Path) (name other : String) (c : Content)
    (hn : isName name = true) (ho : isName other = true) (hne : name ≠ other) :
    (fs.writeFile (p ++ [name]) c).lookup (q ++ [other]) = fs.lookup (q ++ [other]) := by
  unfold FS.lookup
  rw [locate_writeFile]
  cases hq : fs.locate (q ++ [other]) with
  | none => rfl
  | some l =>
    simp only [Option.some_bind]
    apply node_writeFile_other
    intro hp
    obtain ⟨l1, _, _, e1⟩ := locate_child_inv fs p name l hn hp
    obtain ⟨l2, _, _, e2⟩ := locate_child_inv fs q other l ho hq
    have := congrArg filename (e1.symm.trans e2)
    rw [filename_child, filename_child] at this
    exact hne this


/-! ## The dispatcher -/

@[simp] theorem getFS_bind_run {β : Type} (f : FS → Prog β) (w : World) :
    (getFS >>= f) w = f w.fs w := rfl

@[simp] theorem setFS_bind_run {β : Type} (fs : FS) (f : Unit → Prog β) (w : World) :
    (setFS fs >>= f) w = f () { w with fs := fs } := rfl

theorem openWrite_bind_run {β : Type} (file : Path) (f : FileStorage → Prog β) (w : World) :
    (FileStorage.openWrite file >>= f) w =
      f { file := file, isOpened := w.fs.canWrite file, elname := none, entries := [] }
        { w with fs := w.fs.writeFile file (.storage []) } := rfl

theorem arg_bind_run {β : Type} (argv : List String) (i : Nat) (s : String)
    (h : argv[i]? = some s) (f : String → Prog β) (w : World) :
    (arg argv i >>= f) w = f s w := by
  simp [arg, h, bind_run]

/-- C1: for every invocation `app -c <cameraIndex> <dir>` in which `<dir>`,
appended to the working directory and walked as the system walks a path, is an
existing directory with at least one entry, `main` prints the "is not empty"
message and the hint, and returns 0; nothing else happens: the camera is not
opened, no file is written or removed, no calibration is run, and the file
system is the one it started with. -/
theorem main_refuses_nonempty_directory (cv : Vision) (cwd : Path)
    (appName cameraIndex dir : String) (fs : FS)
    (hdir : fs.isDir (pathAppend cwd dir) = true)
    (hne : fs.children (pathAppend cwd dir) ≠ []) :
    main cv cwd [appName, "-c", cameraIndex, dir] ⟨fs, []⟩ =
      .done 0 ⟨fs, [.out "The calibration images directory ",
        .outPath (pathAppend cwd dir),
        .out " is not empty\n",
        .out "Perhaps add the -d option and retry\n"]⟩ := by
  have hl : fs.lookup (pathAppend cwd dir) = some Node.dir := by
    simpa [FS.isDir] using hdir
  have he : (fs.children (pathAppend cwd dir)).isEmpty = false := by
    cases h : fs.children (pathAppend cwd dir) with
    | nil => exact absurd h hne
    | cons a l => rfl
  simp [main, arg, bind_run, is_empty, getFS, hl, he, cout, emit]

/-- An instance of C1: `/work/imgs` holds one file, and the directory is
written `sub/../imgs`, where `/work/sub` is a directory. -/
theorem main_refuses_nonempty_directory_example :
    main (visionWith (cameraWith [])) ["work"] ["app", "-c", "0", "sub/../imgs"]
        ⟨⟨[([], .dir), (["work"], .dir), (["work", "imgs"], .dir), (["work", "sub"], .dir),
           (["work", "imgs", "old.png"], .file (.bytes [1]))]⟩, []⟩ =
      .done 0 ⟨⟨[([], .dir), (["work"], .dir), (["work", "imgs"], .dir), (["work", "sub"], .dir),
           (["work", "imgs", "old.png"], .file (.bytes [1]))]⟩,
        [.out "The calibration images directory ",
         .outPath (pathAppend ["work"] "sub/../imgs"),
         .out " is not empty\n",
         .out "Perhaps add the -d option and retry\n"]⟩ :=
  main_refuses_nonempty_directory (visionWith (cameraWith [])) ["work"] "app" "0" "sub/../imgs"
    ⟨[([], .dir), (["work"], .dir), (["work", "imgs"], .dir), (["work", "sub"], .dir),
      (["work", "imgs", "old.png"], .file (.bytes [1]))]⟩ (by decide) (by decide)

/-- The path text is walked, not rewritten: when `/work/nonexist` does not
exist, `nonexist/../imgs` names nothing and `is_empty` throws. -/
theorem main_directory_text_is_walked :
    pathAppend ["work"] "nonexist/../imgs" = ["work", "nonexist", "..", "imgs"] ∧
    main (visionWith (cameraWith [])) ["work"] ["app", "-c", "0", "nonexist/../imgs"]
        ⟨fsOldImages, []⟩ = .throw (.filesystem_error "is_empty") ⟨fsOldImages, []⟩ ∧
    main (visionWith (cameraWith [])) ["work"] ["app", "-c", "0", "imgs/old.png/..", "-d"]
        ⟨fsOldImages, []⟩ =
      .throw (.filesystem_error "directory_iterator") ⟨fsOldImages, []⟩ := by
  refine ⟨by decide, rfl, rfl⟩

/-- C3 fails on the code: with `-c` and no further argument, or one, `main`
reads `argv[3]` which is not there (undefined behaviour); with `-c` and more
than four arguments it goes on to acquisition, without looking at the image
directory, and opens the camera.  In none of the three does it print the help,
which it does print on the neighbouring paths: no argument, a fifth argument
other than `-d`, `-t` with a wrong number of arguments, another command. -/
theorem main_c_with_wrong_argument_count (cv : Vision) (cwd : Path) (fs : FS) :
    main cv cwd ["app", "-c"] ⟨fs, []⟩ = .undefined ∧
    main cv cwd ["app", "-c", "0"] ⟨fs, []⟩ = .undefined ∧
    main cv cwd ["app", "-c", "0", "imgs", "-d", "extra"] ⟨fs, []⟩ =
      acquireAndCalibrate cv cwd "0" (pathAppend cwd "imgs") ⟨fs, []⟩ ∧
    main (visionWith closedCamera) ["work"] ["app", "-c", "0", "imgs", "-d", "extra"]
        ⟨fsEmptyImgs, []⟩ =
      .exit 0 ⟨fsEmptyImgs, [.openCapture 0,
        .out "Failed to open the video stream for camera #0\n"]⟩ ∧
    (∀ argv ∈ [["app"], ["app", "-c", "0", "imgs", "-x"], ["app", "-t"],
        ["app", "-t", "0", "extra"], ["app", "-x", "0"]],
      main cv cwd argv ⟨fs, []⟩ = .done 0 ⟨fs,
        [.out "Invalid arguments, please use:\n",
         .out "app -c [#camera] [some-path] -d\n",
         .out "app -t [#camera]\n"]⟩) := by
  refine ⟨rfl, rfl, rfl, rfl, ?_⟩
  intro argv h
  simp only [List.mem_cons, List.mem_singleton, List.not_mem_nil, or_false] at h
  rcases h with rfl | rfl | rfl | rfl | rfl <;> rfl

/-- C10 fails on the code: a camera index without a digit makes `std::stoi`
throw `std::invalid_argument`, which nothing catches; `main` ends by that
exception, without the help text, under `-t` and under `-c` (there after the
old images are deleted when `-d` is given). -/
theorem main_unparseable_camera_index (cv : Vision) (cwd : Path) (fs : FS) :
    main cv cwd ["app", "-t", "abc"] ⟨fs, []⟩ = .throw (.invalid_argument "stoi") ⟨fs, []⟩ ∧
    main cv ["work"] ["app", "-c", "abc", "imgs"] ⟨fsEmptyImgs, []⟩ =
      .throw (.invalid_argument "stoi") ⟨fsEmptyImgs, []⟩ ∧
    main cv ["work"] ["app", "-c", "abc", "imgs", "-d"]
        ⟨⟨[([], .dir), (["work"], .dir), (["work", "imgs"], .dir),
           (["work", "imgs", "old.png"], .file (.bytes [1]))]⟩, []⟩ =
      .throw (.invalid_argument "stoi") ⟨fsEmptyImgs,
        [.remove_all ["work", "imgs", "old.png"],
         .out "The existing calibration images in ",
         .outPath ["work", "imgs"],
         .out " have been deleted\n"]⟩ := by
  refine ⟨rfl, rfl, rfl⟩

/-! ## Deleting the old images -/

/-- Removing entries of the directory at `d` leaves a walk that stays off the
locations below `d` as it is. -/
theorem locate_removeEachAt (fs : FS) (text : Path) (d : Loc) (cs : List Loc)
    (hcs : ∀ c ∈ cs, isChild d c = true)
    (htrail : ∀ v ∈ fs.trail [] text, isBelow d v = false) :
    (fs.removeEachAt cs).locate text = fs.locate text := by
  unfold FS.locate
  apply walk_congr
  intro v hv
  unfold FS.isDirAt
  rw [node_removeEachAt_keep fs d cs hcs v (htrail v hv)]

/-- The deletion loop on the entries of the directory a path text denotes, when
walking the text meets no location below that directory. -/
theorem removeEntries_run (fs : FS) (text : Path) (d : Loc)
    (hloc : fs.locate text = some d) (hdir : fs.isDirAt d = true)
    (htrail : ∀ v ∈ fs.trail [] text, isBelow d v = false) :
    ∀ (cs gone : List Loc) (w : World),
      (∀ c ∈ cs, isChild d c = true) → (∀ c ∈ gone, isChild d c = true) →
      w.fs = fs.removeEachAt gone →
      removeEntries (cs.map (fun c => text ++ [filename c])) w =
        .done () ⟨fs.removeEachAt (gone ++ cs),
          w.trace ++ (cs.map (fun c => text ++ [filename c])).map Event.remove_all⟩ := by
  intro cs
  induction cs with
  | nil =>
    intro gone w _ _ hw
    cases w with
    | mk wfs wtrace =>
      simp only at hw
      simp [removeEntries, pure_run, hw]
  | cons c cs ih =>
    intro gone w hcs hgone hw
    have hc : isChild d c = true := hcs c (List.mem_cons_self _ _)
    have hself : isBelow d d = false := by simp [isBelow]
    have hl : w.fs.locate text = some d := by
      rw [hw, locate_removeEachAt fs text d gone hgone htrail]
      exact hloc
    have hd : w.fs.isDirAt d = true := by
      rw [hw]
      unfold FS.isDirAt at hdir ⊢
      rw [node_removeEachAt_keep fs d gone hgone d hself]
      exact hdir
    have hrem : w.fs.remove_all (text ++ [filename c]) = fs.removeEachAt (gone ++ [c]) := by
      unfold FS.remove_all
      rw [(lookup_entry w.fs text d c hl hd hc).1, removeEachAt_concat, hw]
    have hgone2 : ∀ x ∈ gone ++ [c], isChild d x = true := by
      intro x hx
      rcases List.mem_append.1 hx with h | h
      · exact hgone x h
      · rw [List.mem_singleton.1 h]; exact hc
    have := ih (gone ++ [c])
      ⟨fs.removeEachAt (gone ++ [c]), w.trace ++ [Event.remove_all (text ++ [filename c])]⟩
      (fun x hx => hcs x (List.mem_cons_of_mem _ hx)) hgone2 rfl
    simp only [List.map_cons, removeEntries, emit_bind_run, getFS_bind_run, setFS_bind_run]
    rw [hrem, this]
    simp

/-- C2, amended: for every invocation `app -c <cameraIndex> <dir> -d` on a file
system that is a tree, in which `<dir>`, appended to the working directory and
walked as the system walks a path, is an existing directory (at the location
`d`) and the walk meets no location below that directory, `main` reaches the
acquisition step (where the camera is opened and images are written) having
done nothing but `remove_all` on the entries of `<dir>` and printing the
message; in the file system handed to that step `<dir>` still denotes the
directory at `d`, it has no entry, nothing exists below `d`, and every location
not below `d` is as it was. -/
theorem main_delete_flag_empties_directory (cv : Vision) (cwd : Path)
    (appName cameraIndex dir : String) (fs : FS) (d : Loc)
    (hclosed : fs.Closed)
    (hloc : fs.locate (pathAppend cwd dir) = some d) (hdir : fs.isDirAt d = true)
    (htrail : ∀ v ∈ fs.trail [] (pathAppend cwd dir), isBelow d v = false) :
    ∃ fs1 : FS,
      main cv cwd [appName, "-c", cameraIndex, dir, "-d"] ⟨fs, []⟩ =
        acquireAndCalibrate cv cwd cameraIndex (pathAppend cwd dir)
          ⟨fs1, (fs.children (pathAppend cwd dir)).map Event.remove_all ++
            [.out "The existing calibration images in ",
             .outPath (pathAppend cwd dir),
             .out " have been deleted\n"]⟩ ∧
      fs1.locate (pathAppend cwd dir) = some d ∧
      fs1.isDir (pathAppend cwd dir) = true ∧
      fs1.children (pathAppend cwd dir) = [] ∧
      (∀ q, isBelow d q = true → fs1.node q = none) ∧
      (∀ q, isBelow d q = false → fs1.node q = fs.node q) := by
  have hent : ∀ c ∈ fs.entriesAt d, isChild d c = true :=
    fun c hc => ((mem_entriesAt_iff fs d c).1 hc).2
  obtain ⟨h1, h2, h3, h4⟩ := removeEachAt_entries fs d hclosed hdir
  have hl1 : (fs.removeEachAt (fs.entriesAt d)).locate (pathAppend cwd dir) = some d := by
    rw [locate_removeEachAt fs _ d _ hent htrail]
    exact hloc
  have hisdir : fs.isDir (pathAppend cwd dir) = true := (isDir_iff _ _).2 ⟨d, hloc, hdir⟩
  refine ⟨fs.removeEachAt (fs.entriesAt d), ?_, hl1, (isDir_iff _ _).2 ⟨d, hl1, h1⟩, ?_, h3, h4⟩
  · have hrun := removeEntries_run fs (pathAppend cwd dir) d hloc hdir htrail
      (fs.entriesAt d) [] ⟨fs, []⟩ hent (by simp) rfl
    rw [← children_of_locate fs _ d hloc] at hrun
    simp only [List.nil_append] at hrun
    simp [main, arg, bind_run, directory_iterator, getFS, hisdir, hrun, cout, emit]
  · rw [children_of_locate _ _ d hl1, h2]
    rfl

/-- An instance of C2: `/work/imgs` holds a file and a directory with a file. -/
theorem main_delete_flag_example :
    ∃ fs1 : FS,
      main (visionWith closedCamera) ["work"] ["app", "-c", "0", "imgs", "-d"] ⟨fsOldImages, []⟩ =
        acquireAndCalibrate (visionWith closedCamera) ["work"] "0" (pathAppend ["work"] "imgs")
          ⟨fs1, (fsOldImages.children (pathAppend ["work"] "imgs")).map Event.remove_all ++
            [.out "The existing calibration images in ",
             .outPath (pathAppend ["work"] "imgs"),
             .out " have been deleted\n"]⟩ ∧
      fs1.locate (pathAppend ["work"] "imgs") = some ["work", "imgs"] ∧
      fs1.isDir (pathAppend ["work"] "imgs") = true ∧
      fs1.children (pathAppend ["work"] "imgs") = [] ∧
      (∀ q, isBelow ["work", "imgs"] q = true → fs1.node q = none) ∧
      (∀ q, isBelow ["work", "imgs"] q = false → fs1.node q = fsOldImages.node q) :=
  main_delete_flag_empties_directory (visionWith closedCamera) ["work"] "app" "0" "imgs"
    fsOldImages ["work", "imgs"] (by unfold FS.Closed; decide) (by decide) (by decide)
    (by decide)

/-- C2 as stated fails: `imgs/..` names the existing directory `/work`, whose
entries are `imgs` and `calibration.xml`.  When the directory lists `imgs`
first, the loop removes `/work/imgs/../imgs`; after that the text
`/work/imgs/..` names nothing, the removal of `/work/imgs/../calibration.xml`
removes nothing, and the acquisition step is entered with `calibration.xml`
still in `/work`.  When the directory lists `calibration.xml` first, both
entries are removed.  In both orders the acquisition step is handed a `<dir>`
that no longer names a directory. -/
theorem main_delete_flag_through_own_entry :
    pathAppend ["work"] "imgs/.." = ["work", "imgs", ".."] ∧
    fsOldImages.Closed ∧
    fsOldImages.isDir ["work", "imgs", ".."] = true ∧
    fsOldImages.locate ["work", "imgs", ".."] = some ["work"] ∧
    fsOldImages.entriesAt ["work"] = [["work", "imgs"], ["work", "calibration.xml"]] ∧
    main (visionWith closedCamera) ["work"] ["app", "-c", "0", "imgs/..", "-d"]
        ⟨fsOldImages, []⟩ =
      acquireAndCalibrate (visionWith closedCamera) ["work"] "0" ["work", "imgs", ".."]
        ⟨⟨[([], .dir), (["work"], .dir),
           (["work", "calibration.xml"], .file (.storage [])),
           (["home"], .dir), (["home", "keep.txt"], .file (.bytes [3]))]⟩,
         [.remove_all ["work", "imgs", "..", "imgs"],
          .remove_all ["work", "imgs", "..", "calibration.xml"],
          .out "The existing calibration images in ",
          .outPath ["work", "imgs", ".."],
          .out " have been deleted\n"]⟩ ∧
    (FS.mk [([], .dir), (["work"], .dir),
           (["work", "calibration.xml"], .file (.storage [])),
           (["home"], .dir), (["home", "keep.txt"], .file (.bytes [3]))]).entriesAt ["work"] =
      [["work", "calibration.xml"]] ∧
    (FS.mk [([], .dir), (["work"], .dir),
           (["work", "calibration.xml"], .file (.storage [])),
           (["home"], .dir), (["home", "keep.txt"], .file (.bytes [3]))]).isDir
        ["work", "imgs", ".."] = false ∧
    main (visionWith closedCamera) ["work"] ["app", "-c", "0", "imgs/..", "-d"]
        ⟨⟨[([], .dir), (["work"], .dir),
           (["work", "calibration.xml"], .file (.storage [])),
           (["work", "imgs"], .dir),
           (["work", "imgs", "old.png"], .file (.bytes [1]))]⟩, []⟩ =
      acquireAndCalibrate (visionWith closedCamera) ["work"] "0" ["work", "imgs", ".."]
        ⟨⟨[([], .dir), (["work"], .dir)]⟩,
         [.remove_all ["work", "imgs", "..", "calibration.xml"],
          .remove_all ["work", "imgs", "..", "imgs"],
          .out "The existing calibration images in ",
          .outPath ["work", "imgs", ".."],
          .out " have been deleted\n"]⟩ ∧
    (FS.mk [([], .dir), (["work"], .dir)]).isDir ["work", "imgs", ".."] = false := by
  refine ⟨by decide, by unfold FS.Closed; decide, by decide, by decide, by decide, rfl,
    by decide, by decide, rfl, by decide⟩

/-! ## The file set and the image loop -/

theorem child_lt_iff (d : Path) (x y : String) : d ++ [x] < d ++ [y] ↔ x < y := by
  induction d with
  | nil => exact List.Lex.singleton_iff x y
  | cons a d ih =>
    rw [← ih]
    exact List.Lex.cons_iff

theorem lexLess_iff {α : Type} [LinearOrder α] (less : α → α → Bool)
    (hless : ∀ x y, less x y = true ↔ x < y) :
    ∀ a b : List α, lexLess less a b = true ↔ List.Lex (· < ·) a b := by
  intro a
  induction a with
  | nil =>
    intro b
    cases b with
    | nil => simp [lexLess]
    | cons y b => simp [lexLess, List.Lex.nil]
  | cons x a ih =>
    intro b
    cases b with
    | nil => simp [lexLess]
    | cons y b =>
      unfold lexLess
      by_cases h1 : less x y = true
      · rw [if_pos h1]
        exact ⟨fun _ => List.Lex.rel ((hless x y).1 h1), fun _ => rfl⟩
      · rw [if_neg h1]
        have h1n : ¬ x < y := fun h => h1 ((hless x y).2 h)
        by_cases h2 : less y x = true
        · rw [if_pos h2]
          have h2p : y < x := (hless y x).1 h2
          constructor
          · intro h; exact absurd h Bool.false_ne_true
          · intro h
            cases h with
            | cons h => exact absurd h2p (lt_irrefl _)
            | rel h => exact absurd h h1n
        · rw [if_neg h2]
          have h2n : ¬ y < x := fun h => h2 ((hless y x).2 h)
          have hxy : x = y := le_antisymm (not_lt.mp h2n) (not_lt.mp h1n)
          subst hxy
          rw [ih b]
          exact List.Lex.cons_iff.symm

theorem stringLess_iff (a b : String) : stringLess a b = true ↔ a < b := by
  rw [String.lt_iff_toList_lt]
  exact lexLess_iff _ (fun c d => decide_eq_true_iff) a.data b.data

theorem pathLess_iff (a b : Path) : pathLess a b = true ↔ a < b :=
  lexLess_iff _ stringLess_iff a b

theorem pathLess_neg (a b : Path) : ¬ pathLess a b = true ↔ ¬ a < b :=
  not_congr (pathLess_iff a b)

theorem mem_setInsert (a x : Path) : ∀ l : List Path, x ∈ setInsert a l ↔ x = a ∨ x ∈ l := by
  intro l
  induction l with
  | nil => simp [setInsert]
  | cons b l ih =>
    unfold setInsert
    by_cases h1 : a < b
    · rw [if_pos ((pathLess_iff a b).2 h1)]; simp
    · rw [if_neg ((pathLess_neg a b).2 h1)]
      by_cases h2 : b < a
      · rw [if_pos ((pathLess_iff b a).2 h2), List.mem_cons, ih, List.mem_cons]
        tauto
      · rw [if_neg ((pathLess_neg b a).2 h2)]
        have hab : a = b := le_antisymm (not_lt.mp h2) (not_lt.mp h1)
        rw [hab, List.mem_cons]
        tauto

theorem sorted_setInsert (a : Path) :
    ∀ l : List Path, List.Sorted (· < ·) l → List.Sorted (· < ·) (setInsert a l) := by
  intro l
  induction l with
  | nil => intro _; simp [setInsert]
  | cons b l ih =>
    intro hs
    unfold setInsert
    have hs2 := List.sorted_cons.1 hs
    by_cases h1 : a < b
    · rw [if_pos ((pathLess_iff a b).2 h1)]
      refine List.sorted_cons.2 ⟨?_, hs⟩
      intro c hc
      rcases List.mem_cons.1 hc with rfl | hc
      · exact h1
      · exact lt_trans h1 (hs2.1 c hc)
    · rw [if_neg ((pathLess_neg a b).2 h1)]
      by_cases h2 : b < a
      · rw [if_pos ((pathLess_iff b a).2 h2)]
        refine List.sorted_cons.2 ⟨?_, ih hs2.2⟩
        intro c hc
        rcases (mem_setInsert a c l).1 hc with rfl | hc
        · exact h2
        · exact hs2.1 c hc
      · rw [if_neg ((pathLess_neg b a).2 h2)]; exact hs

theorem sortedFileSet_spec (entries : List Path) :
    List.Sorted (· < ·) (sortedFileSet entries) ∧
      ∀ x, x ∈ sortedFileSet entries ↔ x ∈ entries := by
  have h : ∀ (es s : List Path), List.Sorted (· < ·) s →
      List.Sorted (· < ·) (es.foldl (fun s p => setInsert p s) s) ∧
        ∀ x, x ∈ es.foldl (fun s p => setInsert p s) s ↔ x ∈ es ∨ x ∈ s := by
    intro es
    induction es with
    | nil => intro s hs; simp [hs]
    | cons e es ih =>
      intro s hs
      have := ih (setInsert e s) (sorted_setInsert e s hs)
      refine ⟨this.1, ?_⟩
      intro x
      rw [List.foldl_cons, this.2 x, mem_setInsert, List.mem_cons]
      tauto
  have := h entries [] List.sorted_nil
  refine ⟨this.1, ?_⟩
  intro x
  rw [show sortedFileSet entries = entries.foldl (fun s p => setInsert p s) [] from rfl, this.2 x]
  simp

theorem endsWith_iff_suffix (s e : String) : endsWith s e = true ↔ e.data <:+ s.data := by
  unfold endsWith
  show (if s.data.length ≥ e.data.length then
      decide ((s.data.drop (s.data.length - e.data.length)).take e.data.length = e.data)
    else false) = true ↔ _
  by_cases h : s.data.length ≥ e.data.length
  · rw [if_pos h, decide_eq_true_iff, List.suffix_iff_eq_drop]
    have hlen : (s.data.drop (s.data.length - e.data.length)).length = e.data.length := by
      rw [List.length_drop]; omega
    rw [List.take_of_length_le (le_of_eq hlen)]
    exact eq_comm
  · rw [if_neg h]
    constructor
    · intro hf; exact absurd hf Bool.false_ne_true
    · intro hs
      exact absurd hs.length_le (by omega)

theorem processed_append (s t : List Event) :
    processed (s ++ t) = processed s ++ processed t := by
  simp [processed, List.filterMap_append]

theorem quiet_out_of_head (s : String) (c : Char) (hc : c ≠ 'S') (h : s.data.head? = some c) :
    quiet (.out s) = true := by
  simp only [quiet, decide_eq_true_eq]
  intro heq
  rw [heq] at h
  simp at h
  exact hc h.symm

theorem takeThrough_of_none {α : Type} (stop : α → Bool) :
    ∀ l : List α, l.any stop = false → takeThrough stop l = l := by
  intro l
  induction l with
  | nil => intro _; rfl
  | cons a l ih =>
    intro h
    rw [List.any_cons, Bool.or_eq_false_iff] at h
    simp [takeThrough, h.1, ih h.2]

theorem takeThrough_prefix {α : Type} (stop : α → Bool) :
    ∀ l : List α, takeThrough stop l <+: l := by
  intro l
  induction l with
  | nil => exact List.prefix_refl _
  | cons a l ih =>
    unfold takeThrough
    by_cases h : stop a = true
    · rw [if_pos h]
      exact ⟨l, rfl⟩
    · rw [if_neg h]
      exact (List.prefix_cons_inj a).2 ih

theorem cvtColor_bind_empty {β : Type} (cv : Vision) (m : Mat) (f : Mat → Prog β) (w : World)
    (h : matEmpty m = true) :
    (cvtColor cv m >>= f) w =
      .throw (.cv "(-215:Assertion failed) !_src.empty() in function cvtColor") w := by
  simp [cvtColor, h, bind_run, raise]

theorem cvtColor_bind_nonempty {β : Type} (cv : Vision) (m : Mat) (f : Mat → Prog β)
    (w : World) (h : matEmpty m = false) :
    (cvtColor cv m >>= f) w = f (cv.cvtColor m) w := by
  simp [cvtColor, h, bind_run, pure_run]

/-- The image loop: what it adds to the trace, and how it ends: by the
exception of `cv::cvtColor` at the first candidate that does not decode, or
with the accumulators. -/
theorem calibLoop_run (cv : Vision) :
    ∀ (ps : List Path) (acc : List (List Point3f) × List (List Point2f)) (w : World),
      ∃ evs, processed evs = takeThrough (undecodable w.fs) (ps.filter (isCandidate w.fs)) ∧
        (∀ e ∈ evs, quiet e = true) ∧
        calibLoop cv ps acc w =
          if (ps.filter (isCandidate w.fs)).any (undecodable w.fs) = true then
            .throw (.cv "(-215:Assertion failed) !_src.empty() in function cvtColor")
              ⟨w.fs, w.trace ++ evs⟩
          else
            .done (acc.1 ++ List.replicate (hits cv w.fs ps).length objP,
                acc.2 ++ hits cv w.fs ps)
              ⟨w.fs, w.trace ++ evs⟩ := by
  intro ps
  induction ps with
  | nil =>
    intro acc w
    exact ⟨[], rfl, by simp, by simp [calibLoop, hits, pure_run]⟩
  | cons p ps ih =>
    intro acc w
    obtain ⟨objectPoints, imagePoints⟩ := acc
    simp only [calibLoop, getFS_bind_run]
    by_cases hc : isCandidate w.fs p = true
    · have hc2 : (is_regular_file w.fs p && endsWith (filename p) ".png") = true := hc
      rw [if_pos hc2]
      simp only [cout_bind_run, emit_bind_run]
      by_cases hu : undecodable w.fs p = true
      · have hm : matEmpty (imread w.fs p) = true := hu
        rw [cvtColor_bind_empty cv _ _ _ hm]
        refine ⟨[.out ("Processing image: " ++ filename p ++ "\n"), .imread p], ?_, ?_, ?_⟩
        · simp [processed, List.filter_cons, hc, takeThrough, hu]
        · intro e he
          simp only [List.mem_cons, List.mem_singleton, List.not_mem_nil, or_false] at he
          rcases he with rfl | rfl
          · exact quiet_out_of_head _ 'P' (by decide) (by simp [String.data_append])
          · rfl
        · simp [List.filter_cons, hc, hu]
      · have hu2 : undecodable w.fs p = false := by simpa using hu
        have hm : matEmpty (imread w.fs p) = false := hu2
        rw [cvtColor_bind_nonempty cv _ _ _ hm]
        cases hf : cv.findChessboardCorners (cv.cvtColor (imread w.fs p)) patternSize with
        | none =>
          simp only [cout_bind_run]
          obtain ⟨evs, hproc, hq, hrun⟩ := ih (objectPoints, imagePoints)
            ⟨w.fs, w.trace ++ [.out ("Processing image: " ++ filename p ++ "\n")] ++
              [.imread p] ++ [.out ("No corners found in image: " ++ filename p ++ "\n")]⟩
          refine ⟨[.out ("Processing image: " ++ filename p ++ "\n"), .imread p,
            .out ("No corners found in image: " ++ filename p ++ "\n")] ++ evs, ?_, ?_, ?_⟩
          · rw [processed_append, hproc]
            simp [processed, List.filter_cons, hc, takeThrough, hu2]
          · intro e he
            rcases List.mem_append.1 he with h | h
            · simp only [List.mem_cons, List.mem_singleton, List.not_mem_nil, or_false] at h
              rcases h with rfl | rfl | rfl
              · exact quiet_out_of_head _ 'P' (by decide) (by simp [String.data_append])
              · rfl
              · exact quiet_out_of_head _ 'N' (by decide) (by simp [String.data_append])
            · exact hq e h
          · rw [hrun]
            simp [hits, List.filter_cons, hc, foundCorners, hf, hu2]
        | some corners =>
          simp only [emit_bind_run]
          obtain ⟨evs, hproc, hq, hrun⟩ := ih
            (objectPoints ++ [objP],
              imagePoints ++ [cv.cornerSubPix (cv.cvtColor (imread w.fs p)) corners])
            ⟨w.fs, w.trace ++ [.out ("Processing image: " ++ filename p ++ "\n")] ++
              [.imread p] ++ [.imshow "Calibration Image"
                (cv.drawChessboardCorners (cv.cvtColor (imread w.fs p)) patternSize
                  (cv.cornerSubPix (cv.cvtColor (imread w.fs p)) corners))]⟩
          refine ⟨[.out ("Processing image: " ++ filename p ++ "\n"), .imread p,
            .imshow "Calibration Image"
                (cv.drawChessboardCorners (cv.cvtColor (imread w.fs p)) patternSize
                  (cv.cornerSubPix (cv.cvtColor (imread w.fs p)) corners))] ++ evs, ?_, ?_, ?_⟩
          · rw [processed_append, hproc]
            simp [processed, List.filter_cons, hc, takeThrough, hu2]
          · intro e he
            rcases List.mem_append.1 he with h | h
            · simp only [List.mem_cons, List.mem_singleton, List.not_mem_nil, or_false] at h
              rcases h with rfl | rfl | rfl
              · exact quiet_out_of_head _ 'P' (by decide) (by simp [String.data_append])
              · rfl
              · rfl
            · exact hq e h
          · rw [hrun]
            simp [hits, List.filter_cons, hc, foundCorners, hf, hu2, List.replicate_succ]
    · have hc2 : ¬ (is_regular_file w.fs p && endsWith (filename p) ".png") = true := hc
      rw [if_neg hc2]
      obtain ⟨evs, hproc, hq, hrun⟩ := ih (objectPoints, imagePoints) w
      refine ⟨evs, ?_, hq, ?_⟩
      · rw [hproc]
        simp [List.filter_cons, hc]
      · rw [hrun]
        simp [hits, List.filter_cons, hc]


/-! ## `generateCalibration` as a whole -/

theorem generateCalibration_no_directory (cv : Vision) (cwd p : Path) (w : World)
    (hdir : w.fs.isDir p = false) :
    generateCalibration cv cwd p w = .throw (.filesystem_error "directory_iterator") w := by
  simp [generateCalibration, directory_iterator, bind_run, getFS, hdir, raise]

/-- The run of `generateCalibration` on an existing directory: it ends in the
image loop when a candidate does not decode, and otherwise by the answer of the
solver. -/
theorem generateCalibration_run (cv : Vision) (cwd p : Path) (w : World)
    (hdir : w.fs.isDir p = true) :
    ∃ evs, processed evs = takeThrough (undecodable w.fs)
        ((sortedFileSet (w.fs.children p)).filter (isCandidate w.fs)) ∧
      (∀ e ∈ evs, quiet e = true) ∧
      generateCalibration cv cwd p w =
        if ((sortedFileSet (w.fs.children p)).filter (isCandidate w.fs)).any
            (undecodable w.fs) = true then
          .throw (.cv "(-215:Assertion failed) !_src.empty() in function cvtColor")
            ⟨w.fs, w.trace ++ evs⟩
        else
        match cv.calibrateCamera
            (List.replicate (hits cv w.fs (sortedFileSet (w.fs.children p))).length objP)
            (hits cv w.fs (sortedFileSet (w.fs.children p))) ⟨1920, 1080⟩ with
        | .error what => .throw (.cv what) ⟨w.fs, w.trace ++ evs ++
            [.calibrateCamera
              (List.replicate (hits cv w.fs (sortedFileSet (w.fs.children p))).length objP)
              (hits cv w.fs (sortedFileSet (w.fs.children p))) ⟨1920, 1080⟩]⟩
        | .ok r => .done ()
            ⟨if w.fs.canWrite (calibrationFile cwd) then
                (w.fs.writeFile (calibrationFile cwd) (.storage [])).writeFile
                  (calibrationFile cwd) (.storage (calibrationEntries r))
              else w.fs,
             w.trace ++ evs ++
              [.calibrateCamera
                (List.replicate (hits cv w.fs (sortedFileSet (w.fs.children p))).length objP)
                (hits cv w.fs (sortedFileSet (w.fs.children p))) ⟨1920, 1080⟩] ++
              reportEvents r ++
              (if w.fs.canWrite (calibrationFile cwd) then
                [.storageSaved (calibrationFile cwd) (calibrationEntries r)] else [])⟩ := by
  obtain ⟨evs, hproc, hq, hrun⟩ := calibLoop_run cv (sortedFileSet (w.fs.children p)) ([], [])
    ⟨w.fs, w.trace ++ [.out "\nPress any key to progress to the next image\n"]⟩
  refine ⟨[.out "\nPress any key to progress to the next image\n"] ++ evs, ?_, ?_, ?_⟩
  · rw [processed_append, hproc]
    simp [processed]
  · intro e he
    rcases List.mem_append.1 he with h | h
    · rw [List.mem_singleton] at h
      rw [h]
      rfl
    · exact hq e h
  · have hit : directory_iterator p w = .done (w.fs.children p) w := by
      simp [directory_iterator, getFS, bind_run, hdir]
    rw [generateCalibration, bind_done hit]
    simp only [cout_bind_run]
    by_cases hany : ((sortedFileSet (w.fs.children p)).filter (isCandidate w.fs)).any
        (undecodable w.fs) = true
    · rw [if_pos hany] at hrun
      rw [if_pos hany, bind_run, hrun]
      simp
    · rw [if_neg hany] at hrun
      rw [if_neg hany, bind_done hrun]
      simp only [emit_bind_run, List.nil_append]
      cases hs : cv.calibrateCamera
          (List.replicate (hits cv w.fs (sortedFileSet (w.fs.children p))).length objP)
          (hits cv w.fs (sortedFileSet (w.fs.children p))) ⟨1920, 1080⟩ with
      | error what => simp [raise]
      | ok r =>
        simp only [cout_bind_run, emit_bind_run, openWrite_bind_run]
        by_cases hw : w.fs.canWrite (calibrationFile cwd) = true
        · simp [FileStorage.release, FileStorage.putName, FileStorage.putMat, getFS, setFS,
            bind_run, hw, reportEvents, calibrationEntries, emit]
        · simp [FileStorage.release, FileStorage.putName, FileStorage.putMat, hw, reportEvents,
            writeFile_of_not_canWrite w.fs _ _ hw]

theorem children_isChild (fs : FS) (d c : Path) (h : c ∈ fs.children d) : isChild d c = true := by
  unfold FS.children at h
  cases hl : fs.locate d with
  | none => rw [hl] at h; exact absurd h (List.not_mem_nil c)
  | some l =>
    rw [hl] at h
    obtain ⟨e, he, rfl⟩ := List.mem_map.1 h
    have hn := ((isChild_iff l e).1 ((mem_entriesAt_iff fs l e).1 he).2).2.2
    rw [isChild_iff]
    refine ⟨by simp, by simp, ?_⟩
    rw [filename_child]
    exact hn

/-- A strictly increasing list of entries of one directory has strictly increasing names. -/
theorem sorted_filenames (d : Path) (l : List Path) (hl : ∀ a ∈ l, isChild d a = true)
    (hs : List.Sorted (· < ·) l) : List.Sorted (· < ·) (l.map filename) := by
  unfold List.Sorted at hs ⊢
  rw [List.pairwise_map]
  refine List.Pairwise.imp_of_mem ?_ hs
  intro a b ha hb hab
  have ea := child_eq d a (hl a ha)
  have eb := child_eq d b (hl b hb)
  rw [ea, eb] at hab
  exact (child_lt_iff d _ _).1 hab

/-- The images a run of `generateCalibration` processes: the trace it leaves,
however the run ends. -/
theorem generateCalibration_processed (cv : Vision) (cwd p : Path) (w : World)
    (hdir : w.fs.isDir p = true) :
    ∃ w1, (generateCalibration cv cwd p w).world? = some w1 ∧
      processed w1.trace = processed w.trace ++ takeThrough (undecodable w.fs)
        ((sortedFileSet (w.fs.children p)).filter (isCandidate w.fs)) := by
  obtain ⟨evs, hproc, _, hrun⟩ := generateCalibration_run cv cwd p w hdir
  rw [hrun]
  by_cases hany : ((sortedFileSet (w.fs.children p)).filter (isCandidate w.fs)).any
      (undecodable w.fs) = true
  · rw [if_pos hany]
    refine ⟨_, rfl, ?_⟩
    simp only [processed_append, hproc]
  · rw [if_neg hany]
    cases cv.calibrateCamera
        (List.replicate (hits cv w.fs (sortedFileSet (w.fs.children p))).length objP)
        (hits cv w.fs (sortedFileSet (w.fs.children p))) ⟨1920, 1080⟩ with
    | error what =>
      refine ⟨_, rfl, ?_⟩
      simp only [processed_append, hproc]
      simp [processed]
    | ok r =>
      refine ⟨_, rfl, ?_⟩
      simp only [processed_append, hproc]
      by_cases hw : w.fs.canWrite (calibrationFile cwd) = true
      · simp [processed, reportEvents, hw]
      · simp [processed, reportEvents, hw]

/-- C5, amended: on an existing images directory, let `candidates` be the
entries of the directory that are regular files and whose name has `.png` as a
suffix, each once, in strictly increasing order of name.  The images
`generateCalibration` processes (its `cv::imread` calls, in order) are the
candidates up to and including the first one `cv::imread` cannot decode, and
all the candidates when each of them decodes; no other entry is processed.
`endsWith(name, ".png")` holds exactly when the last four characters of the
name are `.png`, comparing characters as they are (so not for `.PNG`). -/
theorem generateCalibration_processes_png_files_in_name_order (cv : Vision)
    (cwd imagesPath : Path) (w : World) (hdir : w.fs.isDir imagesPath = true) :
    ∃ (w1 : World) (candidates visited : List Path),
      (generateCalibration cv cwd imagesPath w).world? = some w1 ∧
      processed w1.trace = processed w.trace ++ visited ∧
      (∀ p, p ∈ candidates ↔ p ∈ w.fs.children imagesPath ∧ is_regular_file w.fs p = true ∧
        ".png".data <:+ (filename p).data) ∧
      candidates.Nodup ∧
      List.Sorted (· < ·) (candidates.map filename) ∧
      visited = takeThrough (undecodable w.fs) candidates ∧
      ((∀ p ∈ candidates, undecodable w.fs p = false) → visited = candidates) ∧
      (∀ name : String, endsWith name ".png" = true ↔
        4 ≤ name.length ∧ name.data.drop (name.length - 4) = ['.', 'p', 'n', 'g']) ∧
      endsWith "a.PNG" ".png" = false := by
  obtain ⟨w1, hw1, hproc⟩ := generateCalibration_processed cv cwd imagesPath w hdir
  have hS := sortedFileSet_spec (w.fs.children imagesPath)
  have hsorted : List.Sorted (· < ·)
      ((sortedFileSet (w.fs.children imagesPath)).filter (isCandidate w.fs)) :=
    hS.1.filter _
  refine ⟨w1, _, _, hw1, hproc, ?_, ?_, ?_, rfl, ?_, ?_, by decide⟩
  · intro q
    rw [List.mem_filter, hS.2 q]
    unfold isCandidate
    rw [Bool.and_eq_true, endsWith_iff_suffix]
  · exact hsorted.nodup
  · refine sorted_filenames imagesPath _ ?_ hsorted
    intro a ha
    exact children_isChild w.fs imagesPath a ((hS.2 a).1 (List.mem_filter.1 ha).1)
  · intro hall
    apply takeThrough_of_none
    rw [List.any_eq_false]
    intro x hx
    rw [hall x hx]
    exact Bool.false_ne_true
  · intro name
    rw [endsWith_iff_suffix, List.suffix_iff_eq_drop]
    show _ ↔ 4 ≤ name.data.length ∧ _
    constructor
    · intro h
      have hlen := congrArg List.length h
      rw [List.length_drop] at hlen
      have h4 : (".png".data).length = 4 := rfl
      rw [h4] at hlen h
      exact ⟨by omega, h.symm⟩
    · intro h
      exact h.2.symm

/-- An instance of C5: of `b.png`, `notes.txt`, the directory `dir.png`,
`a.png`, `A.PNG` and `png`, the candidates are `a.png` and `b.png`. -/
theorem generateCalibration_processes_png_files_example :
    ∃ (w1 : World) (candidates visited : List Path),
      (generateCalibration (visionWith closedCamera) ["work"] ["work", "imgs"]
        ⟨fsMixedEntries, []⟩).world? = some w1 ∧
      processed w1.trace = processed [] ++ visited ∧
      (∀ p, p ∈ candidates ↔ p ∈ fsMixedEntries.children ["work", "imgs"] ∧
        is_regular_file fsMixedEntries p = true ∧ ".png".data <:+ (filename p).data) ∧
      candidates.Nodup ∧
      List.Sorted (· < ·) (candidates.map filename) ∧
      visited = takeThrough (undecodable fsMixedEntries) candidates ∧
      ((∀ p ∈ candidates, undecodable fsMixedEntries p = false) → visited = candidates) ∧
      (∀ name : String, endsWith name ".png" = true ↔
        4 ≤ name.length ∧ name.data.drop (name.length - 4) = ['.', 'p', 'n', 'g']) ∧
      endsWith "a.PNG" ".png" = false :=
  generateCalibration_processes_png_files_in_name_order (visionWith closedCamera) ["work"]
    ["work", "imgs"] ⟨fsMixedEntries, []⟩ (by decide)

/-- The run of the instance of C5: `a.png` then `b.png`. -/
theorem generateCalibration_mixed_entries_order :
    (generateCalibration (visionWith closedCamera) ["work"] ["work", "imgs"]
        ⟨fsMixedEntries, []⟩).world?.map (fun w => processed w.trace) =
      some [["work", "imgs", "a.png"], ["work", "imgs", "b.png"]] := by
  decide!

/-- C5 as stated fails: `/work/imgs` holds the regular files `a_junk.png`, which
`cv::imread` cannot decode, and `b_good.png`.  The loop reads `a_junk.png`,
`cv::cvtColor` raises on the empty matrix, and `generateCalibration` is left by
that exception: `b_good.png`, a regular file whose name ends in `.png`, is not
processed. -/
theorem generateCalibration_stops_at_undecodable_png :
    fsJunkFirst.isDir ["work", "imgs"] = true ∧
    fsJunkFirst.children ["work", "imgs"] =
      [["work", "imgs", "a_junk.png"], ["work", "imgs", "b_good.png"]] ∧
    is_regular_file fsJunkFirst ["work", "imgs", "b_good.png"] = true ∧
    endsWith (filename ["work", "imgs", "b_good.png"]) ".png" = true ∧
    generateCalibration visionFinding ["work"] ["work", "imgs"] ⟨fsJunkFirst, []⟩ =
      .throw (.cv "(-215:Assertion failed) !_src.empty() in function cvtColor")
        ⟨fsJunkFirst, [.out "\nPress any key to progress to the next image\n",
          .out "Processing image: a_junk.png\n",
          .imread ["work", "imgs", "a_junk.png"]]⟩ ∧
    processed [.out "\nPress any key to progress to the next image\n",
          .out "Processing image: a_junk.png\n",
          .imread ["work", "imgs", "a_junk.png"]] = [["work", "imgs", "a_junk.png"]] := by
  refine ⟨by decide, by decide, by decide, by decide, by decide!, by decide⟩

/-! ## Acquisition order against visiting order -/

theorem sublist_pair_of_sorted {α : Type} [LinearOrder α] (a b : α) :
    ∀ l : List α, List.Sorted (· < ·) l → a ∈ l → b ∈ l → a < b → List.Sublist [a, b] l := by
  intro l
  induction l with
  | nil => intro _ ha; exact absurd ha (List.not_mem_nil a)
  | cons x t ih =>
    intro hs ha hb hab
    have hs2 := List.sorted_cons.1 hs
    rcases List.mem_cons.1 ha with hax | hat
    · rcases List.mem_cons.1 hb with hbx | hbt
      · rw [hax, hbx] at hab
        exact absurd hab (lt_irrefl _)
      · rw [hax]
        exact List.Sublist.cons₂ _ (List.singleton_sublist.2 hbt)
    · rcases List.mem_cons.1 hb with hbx | hbt
      · rw [hbx] at hab
        exact absurd (lt_trans hab (hs2.1 a hat)) (lt_irrefl _)
      · exact List.Sublist.cons _ (ih hs2.2 hat hbt hab)

theorem sorted_of_stringLess (l : List String)
    (h : List.Pairwise (fun a b => stringLess a b = true) l) : List.Sorted (· < ·) l :=
  List.Pairwise.imp (fun {a b} hab => (stringLess_iff a b).1 hab) h

theorem imageName_ten_lt_two : imageName 10 < imageName 2 :=
  (stringLess_iff _ _).1 (by decide)

theorem endsWith_imageName (count : Int) : endsWith (imageName count) ".png" = true := by
  rw [endsWith_iff_suffix]
  exact ⟨("calibration_image_" ++ toString count).data, by simp [imageName, String.data_append]⟩

theorem acquiredNames_sorted_of_le_nine (n : Nat) (h : n ≤ 9) :
    List.Sorted (· < ·) (acquiredNames n) := by
  apply sorted_of_stringLess
  interval_cases n <;> decide

theorem acquiredNames_not_sorted (n : Nat) (h : 10 ≤ n) :
    ¬ List.Sorted (· < ·) (acquiredNames n) := by
  intro hs
  unfold acquiredNames List.Sorted at hs
  rw [List.pairwise_map] at hs
  have hsub : List.Sublist [2, 10] (List.range' 1 n) := by
    have e : List.range' 1 n = List.range' 1 10 ++ List.range' 11 (n - 10) := by
      rw [List.range'_append]
      congr 1
      omega
    rw [e]
    exact List.Sublist.trans (by decide) (List.sublist_append_left _ _)
  have h2 := List.Pairwise.sublist hsub hs
  rw [List.pairwise_cons] at h2
  have h3 : imageName ((2 : Nat) : Int) < imageName ((10 : Nat) : Int) := h2.1 10 (by simp)
  exact absurd (lt_trans h3 imageName_ten_lt_two) (lt_irrefl _)

/-- C6: when the images directory holds exactly the files
`calibration_image_1.png` .. `calibration_image_N.png` (in whatever order the
directory lists them), each an image that decodes, as the files acquisition
wrote are, the order in which `generateCalibration` visits them is the
acquisition order `1, 2, ..., N` exactly when `N ≤ 9`; for `N ≥ 10` the file
`calibration_image_10.png` is visited before `calibration_image_2.png`. -/
theorem generateCalibration_visits_in_acquisition_order_iff (cv : Vision)
    (cwd imagesPath : Path) (w : World) (n : Nat)
    (hdir : w.fs.isDir imagesPath = true)
    (hfiles : List.Perm (w.fs.children imagesPath)
      ((acquiredNames n).map (fun name => imagesPath ++ [name])))
    (hreg : ∀ p ∈ w.fs.children imagesPath, is_regular_file w.fs p = true)
    (hdec : ∀ p ∈ w.fs.children imagesPath, undecodable w.fs p = false) :
    ∃ (w1 : World) (visited : List Path),
      (generateCalibration cv cwd imagesPath w).world? = some w1 ∧
      processed w1.trace = processed w.trace ++ visited ∧
      (visited.map filename = acquiredNames n ↔ n ≤ 9) ∧
      (10 ≤ n → List.Sublist
        [imagesPath ++ ["calibration_image_10.png"], imagesPath ++ ["calibration_image_2.png"]]
        visited) := by
  obtain ⟨w1, hw1, hproc⟩ := generateCalibration_processed cv cwd imagesPath w hdir
  have hS := sortedFileSet_spec (w.fs.children imagesPath)
  have hmem : ∀ q, q ∈ w.fs.children imagesPath ↔
      ∃ name ∈ acquiredNames n, imagesPath ++ [name] = q := by
    intro q
    rw [hfiles.mem_iff, List.mem_map]
  have hcand : (sortedFileSet (w.fs.children imagesPath)).filter (isCandidate w.fs) =
      sortedFileSet (w.fs.children imagesPath) := by
    rw [List.filter_eq_self]
    intro q hq
    have hq2 := (hS.2 q).1 hq
    obtain ⟨name, hname, rfl⟩ := (hmem q).1 hq2
    unfold isCandidate
    rw [hreg _ hq2, filename_child, Bool.true_and]
    unfold acquiredNames at hname
    obtain ⟨i, _, rfl⟩ := List.mem_map.1 hname
    exact endsWith_imageName _
  have hall : takeThrough (undecodable w.fs) (sortedFileSet (w.fs.children imagesPath)) =
      sortedFileSet (w.fs.children imagesPath) := by
    apply takeThrough_of_none
    rw [List.any_eq_false]
    intro x hx
    rw [hdec x ((hS.2 x).1 hx)]
    exact Bool.false_ne_true
  rw [hcand, hall] at hproc
  have hchild : ∀ a ∈ sortedFileSet (w.fs.children imagesPath), isChild imagesPath a = true :=
    fun a ha => children_isChild w.fs imagesPath a ((hS.2 a).1 ha)
  have hnames := sorted_filenames imagesPath _ hchild hS.1
  refine ⟨w1, _, hw1, hproc, ?_, ?_⟩
  · constructor
    · intro heq
      by_contra hn
      rw [heq] at hnames
      exact acquiredNames_not_sorted n (by omega) hnames
    · intro hn
      have hsorted := acquiredNames_sorted_of_le_nine n hn
      have hnd : ((acquiredNames n).map (fun name => imagesPath ++ [name])).Nodup := by
        refine List.Nodup.map ?_ hsorted.nodup
        intro a b hab
        simpa using hab
      have hperm : List.Perm (sortedFileSet (w.fs.children imagesPath))
          ((acquiredNames n).map (fun name => imagesPath ++ [name])) := by
        rw [List.perm_ext_iff_of_nodup hS.1.nodup hnd]
        intro q
        rw [hS.2 q, hfiles.mem_iff]
      have hperm2 := hperm.map filename
      rw [List.map_map] at hperm2
      have hid : (filename ∘ fun name => imagesPath ++ [name]) = id := by
        funext name
        exact filename_child imagesPath name
      rw [hid, List.map_id] at hperm2
      exact List.eq_of_perm_of_sorted hperm2 hnames hsorted
  · intro hn
    have h10 : imagesPath ++ ["calibration_image_10.png"] ∈
        sortedFileSet (w.fs.children imagesPath) := by
      rw [hS.2, hmem]
      refine ⟨_, ?_, rfl⟩
      unfold acquiredNames
      exact List.mem_map.2 ⟨10, by rw [List.mem_range']; exact ⟨9, by omega, rfl⟩, by decide⟩
    have h2 : imagesPath ++ ["calibration_image_2.png"] ∈
        sortedFileSet (w.fs.children imagesPath) := by
      rw [hS.2, hmem]
      refine ⟨_, ?_, rfl⟩
      unfold acquiredNames
      exact List.mem_map.2 ⟨2, by rw [List.mem_range']; exact ⟨1, by omega, rfl⟩, by decide⟩
    refine sublist_pair_of_sorted _ _ _ hS.1 h10 h2 ?_
    rw [child_lt_iff]
    exact imageName_ten_lt_two

/-- An instance of C6 with ten images, which the directory lists out of order. -/
theorem generateCalibration_visits_ten_images :
    ∃ (w1 : World) (visited : List Path),
      (generateCalibration (visionWith closedCamera) ["work"] ["work", "imgs"]
        ⟨fsTenImages, []⟩).world? = some w1 ∧
      processed w1.trace = processed [] ++ visited ∧
      (visited.map filename = acquiredNames 10 ↔ 10 ≤ 9) ∧
      (10 ≤ 10 → List.Sublist
        [["work", "imgs"] ++ ["calibration_image_10.png"],
         ["work", "imgs"] ++ ["calibration_image_2.png"]]
        visited) :=
  generateCalibration_visits_in_acquisition_order_iff (visionWith closedCamera) ["work"]
    ["work", "imgs"] ⟨fsTenImages, []⟩ 10 (by decide) (by decide) (by decide) (by decide)

/-- The ten images are visited in the order 1, 10, 2, 3, ..., 9. -/
theorem generateCalibration_ten_images_order :
    (generateCalibration (visionWith closedCamera) ["work"] ["work", "imgs"]
        ⟨fsTenImages, []⟩).world?.map (fun w => (processed w.trace).map filename) =
      some ["calibration_image_1.png", "calibration_image_10.png", "calibration_image_2.png",
        "calibration_image_3.png", "calibration_image_4.png", "calibration_image_5.png",
        "calibration_image_6.png", "calibration_image_7.png", "calibration_image_8.png",
        "calibration_image_9.png"] := by
  decide!


/-! ## The accumulators -/

theorem solverCalls_append (s t : List Event) :
    solverCalls (s ++ t) = solverCalls s ++ solverCalls t := by
  simp [solverCalls, List.filterMap_append]

theorem solverCalls_quiet (evs : List Event) (h : ∀ e ∈ evs, quiet e = true) :
    solverCalls evs = [] := by
  induction evs with
  | nil => rfl
  | cons e evs ih =>
    have he := h e (List.mem_cons_self _ _)
    have ht := ih (fun x hx => h x (List.mem_cons_of_mem _ hx))
    cases e <;> simp_all [solverCalls, quiet]

theorem hits_length (cv : Vision) (fs : FS) (ps : List Path) :
    (hits cv fs ps).length = ((ps.filter (isCandidate fs)).filter (detected cv fs)).length := by
  unfold hits
  induction ps.filter (isCandidate fs) with
  | nil => rfl
  | cons p l ih =>
    cases hf : cv.findChessboardCorners (cv.cvtColor (imread fs p)) patternSize with
    | none => simp [foundCorners, detected, hf, List.filter_cons, ih]
    | some cs => simp [foundCorners, detected, hf, List.filter_cons, ih]

theorem hits_entry_length (cv : Vision) (fs : FS) (ps : List Path)
    (hdet : ∀ m cs, cv.findChessboardCorners m patternSize = some cs → cs.length = 13 * 8)
    (hsub : ∀ m cs, (cv.cornerSubPix m cs).length = cs.length) :
    ∀ c ∈ hits cv fs ps, c.length = 104 := by
  intro c hc
  unfold hits at hc
  rw [List.mem_filterMap] at hc
  obtain ⟨p, _, hp⟩ := hc
  unfold foundCorners at hp
  rw [Option.map_eq_some'] at hp
  obtain ⟨cs, hcs, rfl⟩ := hp
  rw [hsub, hdet _ cs hcs]

theorem accumulatorsOk_hits (cv : Vision) (fs : FS) (ps : List Path)
    (hdet : ∀ m cs, cv.findChessboardCorners m patternSize = some cs → cs.length = 13 * 8)
    (hsub : ∀ m cs, (cv.cornerSubPix m cs).length = cs.length) :
    AccumulatorsOk cv fs ps (List.replicate (hits cv fs ps).length objP) (hits cv fs ps) := by
  refine ⟨by simp, hits_length cv fs ps, ?_, hits_entry_length cv fs ps hdet hsub⟩
  intro g hg
  exact (List.mem_replicate.1 hg).2

/-- The grid: 104 points, the one at `13*i + j` being `(j, i, 0)`. -/
theorem objP_grid :
    objP.length = 8 * 13 ∧
      ∀ i, i < 8 → ∀ j, j < 13 → objP[13 * i + j]? = some ⟨(j : Int), (i : Int), 0⟩ := by
  constructor
  · decide!
  · decide!

/-- C7: if a successful detection of the 13x8 pattern yields 13*8 corners and
the refinement keeps their number, then in a run of `generateCalibration` on an
existing directory: after any number `k` of iterations of the image loop that
the run reaches (no candidate among the first `k` paths fails to decode),
`objectPoints` and `imagePoints` have the same length, which is the number of
processed images on which detection succeeded, every `objectPoints` entry is
the grid `objP` of 8*13 = 104 points whose element at `13*i + j` is `(j, i, 0)`,
and every `imagePoints` entry has 104 points; when a candidate among the first
`k` paths does not decode the loop is left by the exception of `cv::cvtColor`
before its `k` iterations are over.  The run makes one solver call, with
accumulators in that state, when every candidate decodes, and none when one
does not. -/
theorem generateCalibration_accumulators_stay_paired (cv : Vision) (cwd imagesPath : Path)
    (w : World) (hdir : w.fs.isDir imagesPath = true)
    (hdet : ∀ m cs, cv.findChessboardCorners m patternSize = some cs → cs.length = 13 * 8)
    (hsub : ∀ m cs, (cv.cornerSubPix m cs).length = cs.length) :
    (objP.length = 8 * 13 ∧
      ∀ i, i < 8 → ∀ j, j < 13 → objP[13 * i + j]? = some ⟨(j : Int), (i : Int), 0⟩) ∧
    (∀ (k : Nat) (t : List Event),
      ((((sortedFileSet (w.fs.children imagesPath)).take k).filter (isCandidate w.fs)).any
          (undecodable w.fs) = false →
        ∃ o i w1,
          calibLoop cv ((sortedFileSet (w.fs.children imagesPath)).take k) ([], []) ⟨w.fs, t⟩ =
            .done (o, i) w1 ∧
          AccumulatorsOk cv w.fs ((sortedFileSet (w.fs.children imagesPath)).take k) o i) ∧
      ((((sortedFileSet (w.fs.children imagesPath)).take k).filter (isCandidate w.fs)).any
          (undecodable w.fs) = true →
        ∃ what w1,
          calibLoop cv ((sortedFileSet (w.fs.children imagesPath)).take k) ([], []) ⟨w.fs, t⟩ =
            .throw (.cv what) w1)) ∧
    (∃ w1, (generateCalibration cv cwd imagesPath w).world? = some w1 ∧
      (((sortedFileSet (w.fs.children imagesPath)).filter (isCandidate w.fs)).any
          (undecodable w.fs) = false →
        ∃ o i, solverCalls w1.trace = solverCalls w.trace ++ [(o, i, ⟨1920, 1080⟩)] ∧
          AccumulatorsOk cv w.fs (sortedFileSet (w.fs.children imagesPath)) o i) ∧
      (((sortedFileSet (w.fs.children imagesPath)).filter (isCandidate w.fs)).any
          (undecodable w.fs) = true →
        solverCalls w1.trace = solverCalls w.trace)) := by
  refine ⟨objP_grid, ?_, ?_⟩
  · intro k t
    obtain ⟨evs, _, _, hrun⟩ := calibLoop_run cv
      ((sortedFileSet (w.fs.children imagesPath)).take k) ([], []) ⟨w.fs, t⟩
    dsimp only at hrun
    constructor
    · intro hany
      rw [if_neg (by rw [hany]; exact Bool.false_ne_true)] at hrun
      exact ⟨_, _, _, hrun, by simpa using accumulatorsOk_hits cv w.fs _ hdet hsub⟩
    · intro hany
      rw [if_pos hany] at hrun
      exact ⟨_, _, hrun⟩
  · obtain ⟨evs, _, hq, hrun⟩ := generateCalibration_run cv cwd imagesPath w hdir
    have hok := accumulatorsOk_hits cv w.fs (sortedFileSet (w.fs.children imagesPath)) hdet hsub
    rw [hrun]
    by_cases hany : ((sortedFileSet (w.fs.children imagesPath)).filter (isCandidate w.fs)).any
        (undecodable w.fs) = true
    · rw [if_pos hany]
      refine ⟨_, rfl, ?_, ?_⟩
      · intro hf
        rw [hf] at hany
        exact absurd hany Bool.false_ne_true
      · intro _
        simp only [solverCalls_append, solverCalls_quiet evs hq]
        simp
    · rw [if_neg hany]
      cases cv.calibrateCamera
          (List.replicate (hits cv w.fs (sortedFileSet (w.fs.children imagesPath))).length objP)
          (hits cv w.fs (sortedFileSet (w.fs.children imagesPath))) ⟨1920, 1080⟩ with
      | error what =>
        refine ⟨_, rfl, ?_, fun h => absurd h hany⟩
        intro _
        refine ⟨_, _, ?_, hok⟩
        simp only [solverCalls_append, solverCalls_quiet evs hq]
        simp [solverCalls]
      | ok r =>
        refine ⟨_, rfl, ?_, fun h => absurd h hany⟩
        intro _
        refine ⟨_, _, ?_, hok⟩
        simp only [solverCalls_append, solverCalls_quiet evs hq]
        by_cases hw : w.fs.canWrite (calibrationFile cwd) = true
        · simp [solverCalls, reportEvents, hw]
        · simp [solverCalls, reportEvents, hw]

/-- An instance of C7: one image with a pattern, one without, one text file. -/
theorem generateCalibration_accumulators_example :
    (objP.length = 8 * 13 ∧
      ∀ i, i < 8 → ∀ j, j < 13 → objP[13 * i + j]? = some ⟨(j : Int), (i : Int), 0⟩) ∧
    (∀ (k : Nat) (t : List Event),
      ((((sortedFileSet (fsTwoImages.children ["work", "imgs"])).take k).filter
          (isCandidate fsTwoImages)).any (undecodable fsTwoImages) = false →
        ∃ o i w1,
          calibLoop visionFinding
              ((sortedFileSet (fsTwoImages.children ["work", "imgs"])).take k) ([], [])
              ⟨fsTwoImages, t⟩ = .done (o, i) w1 ∧
          AccumulatorsOk visionFinding fsTwoImages
            ((sortedFileSet (fsTwoImages.children ["work", "imgs"])).take k) o i) ∧
      ((((sortedFileSet (fsTwoImages.children ["work", "imgs"])).take k).filter
          (isCandidate fsTwoImages)).any (undecodable fsTwoImages) = true →
        ∃ what w1,
          calibLoop visionFinding
              ((sortedFileSet (fsTwoImages.children ["work", "imgs"])).take k) ([], [])
              ⟨fsTwoImages, t⟩ = .throw (.cv what) w1)) ∧
    (∃ w1, (generateCalibration visionFinding ["work"] ["work", "imgs"]
        ⟨fsTwoImages, []⟩).world? = some w1 ∧
      (((sortedFileSet (fsTwoImages.children ["work", "imgs"])).filter
          (isCandidate fsTwoImages)).any (undecodable fsTwoImages) = false →
        ∃ o i, solverCalls w1.trace = solverCalls [] ++ [(o, i, ⟨1920, 1080⟩)] ∧
          AccumulatorsOk visionFinding fsTwoImages
            (sortedFileSet (fsTwoImages.children ["work", "imgs"])) o i) ∧
      (((sortedFileSet (fsTwoImages.children ["work", "imgs"])).filter
          (isCandidate fsTwoImages)).any (undecodable fsTwoImages) = true →
        solverCalls w1.trace = solverCalls [])) :=
  generateCalibration_accumulators_stay_paired visionFinding ["work"] ["work", "imgs"]
    ⟨fsTwoImages, []⟩ (by decide)
    (by
      intro m cs h
      simp only [visionFinding] at h
      split at h
      · rw [← Option.some.inj h]; rfl
      · exact absurd h (by simp))
    (fun _ _ => rfl)

/-- The run of the instance of C7: every candidate decodes, and the one solver
call gets one entry on each side. -/
theorem generateCalibration_two_images_solver_call :
    ((sortedFileSet (fsTwoImages.children ["work", "imgs"])).filter
        (isCandidate fsTwoImages)).any (undecodable fsTwoImages) = false ∧
    (generateCalibration visionFinding ["work"] ["work", "imgs"]
        ⟨fsTwoImages, []⟩).world?.map (fun w => solverCalls w.trace) =
      some [([objP], [List.replicate 104 ⟨0, 0⟩], ⟨1920, 1080⟩)] := by
  constructor
  · decide!
  · decide!


/-! ## The calibration file -/

theorem liveLoop_run (cv : Vision) (map1 map2 : Mat) :
    ∀ (stream : List (Mat × Int)) (w : World),
      ∃ evs, liveLoop cv map1 map2 stream w = .done () ⟨w.fs, w.trace ++ evs⟩ ∧
        ∀ e ∈ evs, quiet e = true := by
  intro stream
  induction stream with
  | nil => intro w; exact ⟨[], by simp [liveLoop], by simp⟩
  | cons fc rest ih =>
    obtain ⟨frame, code⟩ := fc
    intro w
    simp only [liveLoop, emit_bind_run]
    by_cases h : code % 256 = 27
    · rw [if_pos h]
      refine ⟨[.imshow "Calibrated Video" (cv.remap frame map1 map2)], by simp, ?_⟩
      intro e he
      rw [List.mem_singleton] at he
      rw [he]; rfl
    · rw [if_neg h]
      obtain ⟨evs, hrun, hq⟩ := ih
        ⟨w.fs, w.trace ++ [.imshow "Calibrated Video" (cv.remap frame map1 map2)]⟩
      refine ⟨[.imshow "Calibrated Video" (cv.remap frame map1 map2)] ++ evs, ?_, ?_⟩
      · rw [hrun]; simp
      · intro e he
        rcases List.mem_append.1 he with h1 | h1
        · rw [List.mem_singleton] at h1
          rw [h1]; rfl
        · exact hq e h1

/-- What `calibratedLiveView` does on a calibration file with the two entries. -/
theorem calibratedLiveView_loads (cv : Vision) (cwd : Path) (capture : Camera) (w : World)
    (cameraMatrix distortionCoeffs : Mat)
    (hfile : w.fs.lookup (calibrationFile cwd) = some (.file (.storage
      [("Camera-Matrix", cameraMatrix), ("Distortion-Coefficients", distortionCoeffs)]))) :
    ∃ evs, calibratedLiveView cv cwd capture w = .done () ⟨w.fs, w.trace ++
      [.out "\n", .out "Camera Matrix:\n", .outMat cameraMatrix, .out "\n\n",
       .out "Distortion Coefficients:\n", .outMat distortionCoeffs, .out "\n\n",
       .initUndistortRectifyMap cameraMatrix distortionCoeffs
         (cv.getOptimalNewCameraMatrix cameraMatrix distortionCoeffs capture.frameSize)
         capture.frameSize] ++ evs⟩ := by
  have hcm : readEntry [("Camera-Matrix", cameraMatrix),
      ("Distortion-Coefficients", distortionCoeffs)] "Camera-Matrix" = cameraMatrix := by
    simp [readEntry]
  have hdc : readEntry [("Camera-Matrix", cameraMatrix),
      ("Distortion-Coefficients", distortionCoeffs)] "Distortion-Coefficients" =
      distortionCoeffs := by
    simp [readEntry, List.find?]
  simp only [calibratedLiveView, getFS_bind_run, hfile, cout_bind_run, emit_bind_run, hcm, hdc]
  obtain ⟨evs, hrun, _⟩ := liveLoop_run cv
    (cv.initUndistortRectifyMap cameraMatrix distortionCoeffs
      (cv.getOptimalNewCameraMatrix cameraMatrix distortionCoeffs capture.frameSize)
      capture.frameSize).1
    (cv.initUndistortRectifyMap cameraMatrix distortionCoeffs
      (cv.getOptimalNewCameraMatrix cameraMatrix distortionCoeffs capture.frameSize)
      capture.frameSize).2 capture.stream
    ⟨w.fs, w.trace ++ [.out "\n"] ++ [.out "Camera Matrix:\n"] ++ [.outMat cameraMatrix] ++
      [.out "\n\n"] ++ [.out "Distortion Coefficients:\n"] ++ [.outMat distortionCoeffs] ++
      [.out "\n\n"] ++ [.initUndistortRectifyMap cameraMatrix distortionCoeffs
         (cv.getOptimalNewCameraMatrix cameraMatrix distortionCoeffs capture.frameSize)
         capture.frameSize]⟩
  refine ⟨evs, ?_⟩
  rw [hrun]
  simp

/-- C9: when `generateCalibration` returns, with the calibration file writable
(the working directory exists and `calibration.xml` is no directory), the
solver was called and answered with some camera matrix `M` and distortion
coefficients `D`; `<cwd>/calibration.xml` then holds exactly the two entries
`Camera-Matrix ↦ M` and `Distortion-Coefficients ↦ D`, whatever it held
before, nothing has changed at any other location, and a following
`calibratedLiveView` in the same working directory reads these two keys from
this file: it prints `M` and `D` and builds its maps from `M` and `D`. -/
theorem calibration_file_round_trip (cv : Vision) (cwd imagesPath : Path) (w w1 : World)
    (hrun : generateCalibration cv cwd imagesPath w = .done () w1)
    (hw : w.fs.canWrite (calibrationFile cwd) = true) :
    ∃ r o i, .calibrateCamera o i ⟨1920, 1080⟩ ∈ w1.trace ∧
      cv.calibrateCamera o i ⟨1920, 1080⟩ = .ok r ∧
      w1.fs.lookup (calibrationFile cwd) = some (.file (.storage
        [("Camera-Matrix", r.cameraMatrix), ("Distortion-Coefficients", r.distortionCoeffs)])) ∧
      (∃ l, w.fs.locate (calibrationFile cwd) = some l ∧
        ∀ q, q ≠ l → w1.fs.node q = w.fs.node q) ∧
      ∀ (capture : Camera) (t : List Event), ∃ evs,
        calibratedLiveView cv cwd capture ⟨w1.fs, t⟩ = .done () ⟨w1.fs, t ++
          [.out "\n", .out "Camera Matrix:\n", .outMat r.cameraMatrix, .out "\n\n",
           .out "Distortion Coefficients:\n", .outMat r.distortionCoeffs, .out "\n\n",
           .initUndistortRectifyMap r.cameraMatrix r.distortionCoeffs
             (cv.getOptimalNewCameraMatrix r.cameraMatrix r.distortionCoeffs capture.frameSize)
             capture.frameSize] ++ evs⟩ := by
  by_cases hdir : w.fs.isDir imagesPath = true
  · obtain ⟨evs, _, _, hgen⟩ := generateCalibration_run cv cwd imagesPath w hdir
    rw [hrun] at hgen
    by_cases hany : ((sortedFileSet (w.fs.children imagesPath)).filter (isCandidate w.fs)).any
        (undecodable w.fs) = true
    · rw [if_pos hany] at hgen
      exact absurd hgen (by simp)
    · rw [if_neg hany] at hgen
      cases hs : cv.calibrateCamera
          (List.replicate (hits cv w.fs (sortedFileSet (w.fs.children imagesPath))).length objP)
          (hits cv w.fs (sortedFileSet (w.fs.children imagesPath))) ⟨1920, 1080⟩ with
      | error what =>
        rw [hs] at hgen
        exact absurd hgen (by simp)
      | ok r =>
        rw [hs] at hgen
        simp only [hw, if_true] at hgen
        have hw1 := (Outcome.done.inj hgen).2
        have hfile : w1.fs.lookup (calibrationFile cwd) = some (.file (.storage
            [("Camera-Matrix", r.cameraMatrix),
             ("Distortion-Coefficients", r.distortionCoeffs)])) := by
          rw [hw1]
          exact lookup_writeFile_same _ _ _ (canWrite_writeFile _ _ _ hw)
        have hloc : ∃ l, w.fs.locate (calibrationFile cwd) = some l := by
          unfold FS.canWrite at hw
          cases hl : w.fs.locate (calibrationFile cwd) with
          | none => rw [hl] at hw; simp at hw
          | some l => exact ⟨l, rfl⟩
        obtain ⟨l, hl⟩ := hloc
        refine ⟨r, _, _, ?_, hs, hfile, ⟨l, hl, ?_⟩, ?_⟩
        · rw [hw1]
          simp
        · intro q hq
          rw [hw1]
          show ((w.fs.writeFile (calibrationFile cwd) (.storage [])).writeFile
            (calibrationFile cwd) (.storage (calibrationEntries r))).node q = _
          rw [node_writeFile_other, node_writeFile_other]
          · rw [hl]
            exact fun h => hq (Option.some.inj h).symm
          · rw [locate_writeFile, hl]
            exact fun h => hq (Option.some.inj h).symm
        · intro capture t
          exact calibratedLiveView_loads cv cwd capture ⟨w1.fs, t⟩ _ _ hfile
  · have hd : w.fs.isDir imagesPath = false := by simpa using hdir
    rw [generateCalibration_no_directory cv cwd imagesPath w hd] at hrun
    exact absurd hrun (by simp)

/-- An instance of C9: a run on two images, over an older calibration file. -/
theorem calibration_file_round_trip_example :
    ∃ r o i, .calibrateCamera o i ⟨1920, 1080⟩ ∈ worldAfterCalibration.trace ∧
      visionFinding.calibrateCamera o i ⟨1920, 1080⟩ = .ok r ∧
      worldAfterCalibration.fs.lookup (calibrationFile ["work"]) = some (.file (.storage
        [("Camera-Matrix", r.cameraMatrix), ("Distortion-Coefficients", r.distortionCoeffs)])) ∧
      (∃ l, fsOldCalibration.locate (calibrationFile ["work"]) = some l ∧
        ∀ q, q ≠ l → worldAfterCalibration.fs.node q = fsOldCalibration.node q) ∧
      ∀ (capture : Camera) (t : List Event), ∃ evs,
        calibratedLiveView visionFinding ["work"] capture ⟨worldAfterCalibration.fs, t⟩ =
          .done () ⟨worldAfterCalibration.fs, t ++
          [.out "\n", .out "Camera Matrix:\n", .outMat r.cameraMatrix, .out "\n\n",
           .out "Distortion Coefficients:\n", .outMat r.distortionCoeffs, .out "\n\n",
           .initUndistortRectifyMap r.cameraMatrix r.distortionCoeffs
             (visionFinding.getOptimalNewCameraMatrix r.cameraMatrix r.distortionCoeffs
               capture.frameSize)
             capture.frameSize] ++ evs⟩ :=
  calibration_file_round_trip visionFinding ["work"] ["work", "imgs"]
    ⟨fsOldCalibration, []⟩ worldAfterCalibration (by decide!) (by decide!)

/-- The file after that run: the two new entries, nothing of the old content. -/
theorem calibration_file_after_example :
    worldAfterCalibration.fs.lookup ["work", "calibration.xml"] = some (.file (.storage
      [("Camera-Matrix", [[900, 0, 960], [0, 900, 540], [0, 0, 1]]),
       ("Distortion-Coefficients", [[1, 2, 3, 4, 5]])])) := by
  decide!


/-! ## A solver error, seen from `main` -/

theorem imageName_ne_calibration (c : Int) : imageName c ≠ "calibration.xml" := by
  intro h
  have h2 := congrArg (fun s => s.data.get? 11) h
  simp [imageName, String.data_append] at h2

theorem isName_imageName (c : Int) : isName (imageName c) = true := by
  have hne : ∀ s : String, s.data.head? ≠ some 'c' → imageName c ≠ s := by
    intro s hs h
    apply hs
    rw [← h]
    simp [imageName, String.data_append]
  simp only [isName, Bool.decide_and, Bool.and_eq_true, decide_eq_true_eq, ne_eq,
    decide_not, Bool.not_eq_true', decide_eq_false_iff_not]
  exact ⟨hne "" (by decide), hne "." (by decide), hne ".." (by decide)⟩

/-- The deletion loop, whatever its paths denote: it returns, and it only takes
nodes away. -/
theorem removeEntries_within :
    ∀ (cs : List Path) (w : World), ∃ fs1,
      removeEntries cs w = .done () ⟨fs1, w.trace ++ cs.map Event.remove_all⟩ ∧
      fs1.Within w.fs ∧ (cs = [] → fs1 = w.fs) := by
  intro cs
  induction cs with
  | nil =>
    intro w
    exact ⟨w.fs, by simp [removeEntries, pure_run], within_refl _, fun _ => rfl⟩
  | cons c cs ih =>
    intro w
    obtain ⟨fs1, hrun, hwithin, _⟩ := ih ⟨w.fs.remove_all c, w.trace ++ [Event.remove_all c]⟩
    refine ⟨fs1, ?_, within_trans _ _ _ hwithin (within_remove_all w.fs c),
      fun h => absurd h (by simp)⟩
    simp only [removeEntries, emit_bind_run, getFS_bind_run, setFS_bind_run]
    rw [hrun]
    simp

theorem quiet_append (s t : List Event) (hs : ∀ e ∈ s, quiet e = true)
    (ht : ∀ e ∈ t, quiet e = true) : ∀ e ∈ s ++ t, quiet e = true := by
  intro e he
  rcases List.mem_append.1 he with h | h
  · exact hs e h
  · exact ht e h

/-- The acquisition loop adds quiet events only and leaves the calibration file alone. -/
theorem aquireLoop_quiet (d cwd : Path) (stream : List (Mat × Int)) :
    ∀ (count : Int) (w w1 : World), (aquireLoop d stream count w).world? = some w1 →
      (∃ evs, w1.trace = w.trace ++ evs ∧ ∀ e ∈ evs, quiet e = true) ∧
      w1.fs.lookup (calibrationFile cwd) = w.fs.lookup (calibrationFile cwd) := by
  induction stream with
  | nil =>
    intro count w w1 h
    rw [aquireLoop_nil] at h
    have hw : w = w1 := Option.some.inj h
    subst hw
    exact ⟨⟨[], by simp, by simp⟩, rfl⟩
  | cons fc rest ih =>
    obtain ⟨frame, code⟩ := fc
    intro count w w1 h
    rw [aquireLoop_cons] at h
    by_cases h27 : code % 256 = 27
    · rw [if_pos h27] at h
      have hw := Option.some.inj h
      rw [← hw]
      refine ⟨⟨[.imshow "Calibration Image" frame], rfl, ?_⟩, rfl⟩
      intro e he
      rw [List.mem_singleton] at he
      rw [he]; rfl
    · rw [if_neg h27] at h
      by_cases h13 : code % 256 = 13
      · rw [if_pos h13] at h
        by_cases hmax : count = INT32_MAX
        · rw [if_pos hmax] at h
          exact absurd h (by simp [Outcome.world?])
        · rw [if_neg hmax] at h
          obtain ⟨⟨evs, htr, hq⟩, hfs⟩ := ih _ _ _ h
          refine ⟨⟨[.imshow "Calibration Image" frame] ++
            [.imwrite (d ++ [imageName (count + 1)]) frame] ++
            [.out ("Image grabbed #" ++ toString (count + 1) ++ "\n")] ++ evs, ?_, ?_⟩, ?_⟩
          · rw [htr]; simp
          · refine quiet_append _ _ ?_ hq
            intro e he
            simp only [List.mem_append, List.mem_singleton] at he
            rcases he with (rfl | rfl) | rfl
            · rfl
            · rfl
            · exact quiet_out_of_head _ 'I' (by decide) (by simp [String.data_append])
          · rw [hfs]
            exact lookup_writeFile_other_name _ d cwd _ _ _ (isName_imageName _) (by decide)
              (imageName_ne_calibration _)
      · rw [if_neg h13] at h
        obtain ⟨⟨evs, htr, hq⟩, hfs⟩ := ih _ _ _ h
        refine ⟨⟨[.imshow "Calibration Image" frame] ++ evs, ?_, ?_⟩, hfs⟩
        · rw [htr]; simp
        · refine quiet_append _ _ ?_ hq
          intro e he
          rw [List.mem_singleton] at he
          rw [he]; rfl

/-- The same for `aquireCalibrationPhotos`. -/
theorem aquireCalibrationPhotos_quiet (cv : Vision) (cameraIndex : Int) (d cwd : Path)
    (w w1 : World) (h : (aquireCalibrationPhotos cv cameraIndex d w).world? = some w1) :
    (∃ evs, w1.trace = w.trace ++ evs ∧ ∀ e ∈ evs, quiet e = true) ∧
      w1.fs.lookup (calibrationFile cwd) = w.fs.lookup (calibrationFile cwd) := by
  by_cases hopen : (cv.camera cameraIndex).isOpened = true
  · rw [aquireCalibrationPhotos_opened cv cameraIndex d w hopen] at h
    obtain ⟨⟨evs, htr, hq⟩, hfs⟩ := aquireLoop_quiet d cwd _ _ _ _ h
    refine ⟨⟨[.openCapture cameraIndex] ++
      [.out "Hit RETURN to grab an image, ESC to quit...\n"] ++ evs, ?_, ?_⟩, hfs⟩
    · rw [htr]; simp
    · refine quiet_append _ _ ?_ hq
      intro e he
      simp only [List.mem_append, List.mem_singleton] at he
      rcases he with rfl | rfl
      · rfl
      · rfl
  · have hclosed : (cv.camera cameraIndex).isOpened = false := by simpa using hopen
    rw [aquireCalibrationPhotos_closed cv cameraIndex d w hclosed] at h
    have hw := Option.some.inj h
    rw [← hw]
    refine ⟨⟨[.openCapture cameraIndex] ++
      [.out ("Failed to open the video stream for camera #" ++ toString cameraIndex ++ "\n")],
      by simp, ?_⟩, rfl⟩
    intro e he
    simp only [List.mem_append, List.mem_singleton] at he
    rcases he with rfl | rfl
    · rfl
    · exact quiet_out_of_head _ 'F' (by decide) (by simp [String.data_append])

theorem not_mem_of_quiet (t : List Event) (hq : ∀ e ∈ t, quiet e = true)
    (o : List (List Point3f)) (i : List (List Point2f)) (sz : Size) :
    Event.calibrateCamera o i sz ∉ t := by
  intro h
  have := hq _ h
  simp [quiet] at this

theorem stoi_cases (s : String) (w : World) :
    (∃ e, stoi s w = .throw e w) ∨ (∃ v, stoi s w = .done v w) := by
  unfold stoi
  simp only
  split_ifs <;> first | exact Or.inl ⟨_, rfl⟩ | exact Or.inr ⟨_, rfl⟩

/-- The end of the `-c` branch, step by step. -/
theorem acquireAndCalibrate_run (cv : Vision) (cwd : Path) (arg2 : String) (p : Path)
    (w0 : World) :
    acquireAndCalibrate cv cwd arg2 p w0 =
      match stoi arg2 w0 with
      | .done cameraIndex wa =>
        match aquireCalibrationPhotos cv cameraIndex p wa with
        | .done count wb =>
          match generateCalibration cv cwd p
              ⟨wb.fs, wb.trace ++ [.out ("Aquired " ++ toString count ++ " calibration images\n")]⟩ with
          | .done _ wc => .done 0 ⟨wc.fs, wc.trace ++
              [.out "Successfully generated the camera calibration parameters\n"]⟩
          | .throw (.cv what) wc => .done 0 ⟨wc.fs, wc.trace ++
              [.out "Unable to generate the camera calibration parameters\n"] ++
              [.out ("Reason: " ++ what ++ "\n")]⟩
          | .throw e wc => .throw e wc
          | .exit st wc => .exit st wc
          | .undefined => .undefined
        | .exit st wb => .exit st wb
        | .throw e wb => .throw e wb
        | .undefined => .undefined
      | .exit st wa => .exit st wa
      | .throw e wa => .throw e wa
      | .undefined => .undefined := by
  unfold acquireAndCalibrate
  rw [bind_run]
  cases stoi arg2 w0 with
  | done cameraIndex wa =>
    simp only
    rw [bind_run]
    cases aquireCalibrationPhotos cv cameraIndex p wa with
    | done count wb =>
      simp only [cout_bind_run]
      rw [bind_run]
      unfold tryCatchCv
      simp only
      rw [bind_run]
      cases hgen : generateCalibration cv cwd p
          ⟨wb.fs, wb.trace ++ [.out ("Aquired " ++ toString count ++ " calibration images\n")]⟩ with
      | done u wc => rfl
      | throw e wc =>
        cases e <;> rfl
      | exit st wc => rfl
      | undefined => rfl
    | exit st wb => rfl
    | throw e wb => rfl
    | undefined => rfl
  | exit st wa => rfl
  | throw e wa => rfl
  | undefined => rfl

theorem mem_trace_solver (t evs : List Event) (ht : ∀ e ∈ t, quiet e = true)
    (o O : List (List Point3f)) (i I : List (List Point2f)) (sz SZ : Size)
    (hevs : ∀ e ∈ evs, ∀ o1 i1 s1, e ≠ Event.calibrateCamera o1 i1 s1)
    (h : Event.calibrateCamera o i sz ∈ t ++ [Event.calibrateCamera O I SZ] ++ evs) :
    o = O ∧ i = I ∧ sz = SZ := by
  simp only [List.mem_append, List.mem_singleton] at h
  rcases h with (h | h) | h
  · exact absurd h (not_mem_of_quiet t ht o i sz)
  · injection h with h1 h2 h3
    exact ⟨h1, h2, h3⟩
  · exact absurd rfl (hevs _ h o i sz)

/-- In the end of the `-c` branch, a solver call that raised is caught. -/
theorem acquireAndCalibrate_solver_error (cv : Vision) (cwd : Path) (arg2 : String) (p : Path)
    (w0 w1 : World) (o : List (List Point3f)) (i : List (List Point2f)) (sz : Size)
    (what : String)
    (hq0 : ∀ e ∈ w0.trace, quiet e = true)
    (hw1 : (acquireAndCalibrate cv cwd arg2 p w0).world? = some w1)
    (hmem : Event.calibrateCamera o i sz ∈ w1.trace)
    (herr : cv.calibrateCamera o i sz = .error what) :
    acquireAndCalibrate cv cwd arg2 p w0 = .done 0 w1 ∧
    (∃ t, w1.trace = w0.trace ++ t ++ [.calibrateCamera o i sz,
        .out "Unable to generate the camera calibration parameters\n",
        .out ("Reason: " ++ what ++ "\n")] ∧ ∀ e ∈ t, quiet e = true) ∧
    w1.fs.lookup (calibrationFile cwd) = w0.fs.lookup (calibrationFile cwd) := by
  rw [acquireAndCalibrate_run] at hw1 ⊢
  rcases stoi_cases arg2 w0 with ⟨e, hs⟩ | ⟨v, hs⟩
  · rw [hs] at hw1
    have hw := Option.some.inj hw1
    rw [← hw] at hmem
    exact absurd hmem (not_mem_of_quiet _ hq0 o i sz)
  · rw [hs] at hw1 ⊢
    simp only at hw1 ⊢
    cases haq : aquireCalibrationPhotos cv v p w0 with
    | undefined =>
      rw [haq] at hw1
      exact absurd hw1 (by simp [Outcome.world?])
    | exit st wb =>
      rw [haq] at hw1
      have hw := Option.some.inj hw1
      obtain ⟨⟨evs, htr, hq⟩, _⟩ := aquireCalibrationPhotos_quiet cv v p cwd w0 wb
        (by rw [haq]; rfl)
      rw [← hw, htr] at hmem
      exact absurd hmem (not_mem_of_quiet _ (quiet_append _ _ hq0 hq) o i sz)
    | throw e wb =>
      rw [haq] at hw1
      have hw := Option.some.inj hw1
      obtain ⟨⟨evs, htr, hq⟩, _⟩ := aquireCalibrationPhotos_quiet cv v p cwd w0 wb
        (by rw [haq]; rfl)
      rw [← hw, htr] at hmem
      exact absurd hmem (not_mem_of_quiet _ (quiet_append _ _ hq0 hq) o i sz)
    | done count wb =>
      rw [haq] at hw1
      simp only at hw1 ⊢
      obtain ⟨⟨evs, htr, hq⟩, hfs⟩ := aquireCalibrationPhotos_quiet cv v p cwd w0 wb
        (by rw [haq]; rfl)
      have hqb : ∀ e ∈ wb.trace ++
          [Event.out ("Aquired " ++ toString count ++ " calibration images\n")],
          quiet e = true := by
        rw [htr]
        refine quiet_append _ _ (quiet_append _ _ hq0 hq) ?_
        intro e he
        rw [List.mem_singleton] at he
        rw [he]
        exact quiet_out_of_head _ 'A' (by decide) (by simp [String.data_append])
      by_cases hdir : wb.fs.isDir p = true
      · obtain ⟨evs2, _, hq2, hgen⟩ := generateCalibration_run cv cwd p
          ⟨wb.fs, wb.trace ++ [.out ("Aquired " ++ toString count ++ " calibration images\n")]⟩
          hdir
        dsimp only at hgen
        by_cases hany : ((sortedFileSet (wb.fs.children p)).filter (isCandidate wb.fs)).any
            (undecodable wb.fs) = true
        · rw [if_pos hany] at hgen
          rw [hgen] at hw1
          have hw := Option.some.inj hw1
          rw [← hw] at hmem
          refine absurd hmem (not_mem_of_quiet _ (quiet_append _ _
            (quiet_append _ _ (quiet_append _ _ hqb hq2) ?_) ?_) o i sz)
          · intro e he
            rw [List.mem_singleton] at he
            rw [he]
            exact quiet_out_of_head _ 'U' (by decide) (by simp)
          · intro e he
            rw [List.mem_singleton] at he
            rw [he]
            exact quiet_out_of_head _ 'R' (by decide) (by simp [String.data_append])
        rw [if_neg hany] at hgen
        rw [hgen] at hw1 ⊢
        cases hsol : cv.calibrateCamera
            (List.replicate (hits cv wb.fs (sortedFileSet (wb.fs.children p))).length objP)
            (hits cv wb.fs (sortedFileSet (wb.fs.children p))) ⟨1920, 1080⟩ with
        | error what1 =>
          rw [hsol] at hw1
          have hw := Option.some.inj hw1
          rw [← hw] at hmem
          have hoi := mem_trace_solver _
            [Event.out "Unable to generate the camera calibration parameters\n",
             Event.out ("Reason: " ++ what1 ++ "\n")]
            (quiet_append _ _ hqb hq2) o _ i _ sz _
            (by
              intro e he o1 i1 s1
              simp only [List.mem_cons, List.mem_singleton, List.not_mem_nil, or_false] at he
              rcases he with rfl | rfl <;> simp)
            (by simpa using hmem)
          obtain ⟨ho, hi, hsz⟩ := hoi
          rw [← ho, ← hi, ← hsz, herr] at hsol
          have hwhat : what = what1 := by
            injection hsol
          subst hwhat
          refine ⟨by rw [← hw], ⟨evs ++
            [Event.out ("Aquired " ++ toString count ++ " calibration images\n")] ++ evs2, ?_,
            quiet_append _ _ (quiet_append _ _ hq ?_) hq2⟩, ?_⟩
          · rw [← hw, ho, hi, hsz, htr]
            simp
          · intro e he
            exact hqb e (List.mem_append_right _ he)
          · rw [← hw]
            exact hfs
        | ok r =>
          rw [hsol] at hw1
          have hw := Option.some.inj hw1
          rw [← hw] at hmem
          have hoi := mem_trace_solver _
            (reportEvents r ++
              (if wb.fs.canWrite (calibrationFile cwd) = true then
                [Event.storageSaved (calibrationFile cwd) (calibrationEntries r)] else []) ++
              [Event.out "Successfully generated the camera calibration parameters\n"])
            (quiet_append _ _ hqb hq2) o _ i _ sz _
            (by
              intro e he o1 i1 s1
              simp only [List.mem_append, List.mem_singleton, reportEvents] at he
              rcases he with (he | he) | he
              · simp only [List.mem_cons, List.mem_singleton, List.not_mem_nil, or_false] at he
                rcases he with rfl | rfl | rfl | rfl | rfl | rfl | rfl | rfl | rfl | rfl | rfl |
                  rfl | rfl | rfl | rfl | rfl <;> simp
              · split at he
                · rw [List.mem_singleton] at he
                  rw [he]; simp
                · exact absurd he (List.not_mem_nil _)
              · rw [he]; simp)
            (by simpa [List.append_assoc] using hmem)
          obtain ⟨ho, hi, hsz⟩ := hoi
          rw [← ho, ← hi, ← hsz, herr] at hsol
          exact absurd hsol (by simp)
      · have hd : wb.fs.isDir p = false := by simpa using hdir
        rw [generateCalibration_no_directory cv cwd p
          ⟨wb.fs, wb.trace ++ [Event.out ("Aquired " ++ toString count ++ " calibration images\n")]⟩
          hd] at hw1
        have hw := Option.some.inj hw1
        rw [← hw] at hmem
        exact absurd hmem (not_mem_of_quiet _ hqb o i sz)

theorem calibratedLiveView_no_file (cv : Vision) (cwd : Path) (capture : Camera) (w : World)
    (h : ∀ entries, w.fs.lookup (calibrationFile cwd) ≠ some (.file (.storage entries))) :
    calibratedLiveView cv cwd capture w =
      .done () ⟨w.fs, w.trace ++ [.out "Unable to open: calibration.xml\n"]⟩ := by
  unfold calibratedLiveView
  rw [getFS_bind_run]
  cases hl : w.fs.lookup (calibrationFile cwd) with
  | none => rfl
  | some n =>
    cases n with
    | dir => rfl
    | file c =>
      cases c with
      | bytes d => rfl
      | image m => rfl
      | storage entries => exact absurd hl (h entries)

theorem calibratedLiveView_file (cv : Vision) (cwd : Path) (capture : Camera) (w : World)
    (entries : List (String × Mat))
    (h : w.fs.lookup (calibrationFile cwd) = some (.file (.storage entries))) :
    calibratedLiveView cv cwd capture w =
      liveLoop cv
        (cv.initUndistortRectifyMap (readEntry entries "Camera-Matrix")
          (readEntry entries "Distortion-Coefficients")
          (cv.getOptimalNewCameraMatrix (readEntry entries "Camera-Matrix")
            (readEntry entries "Distortion-Coefficients") capture.frameSize)
          capture.frameSize).1
        (cv.initUndistortRectifyMap (readEntry entries "Camera-Matrix")
          (readEntry entries "Distortion-Coefficients")
          (cv.getOptimalNewCameraMatrix (readEntry entries "Camera-Matrix")
            (readEntry entries "Distortion-Coefficients") capture.frameSize)
          capture.frameSize).2
        capture.stream
        ⟨w.fs, w.trace ++ [.out "\n"] ++ [.out "Camera Matrix:\n"] ++
          [.outMat (readEntry entries "Camera-Matrix")] ++
          [.out "\n\n"] ++ [.out "Distortion Coefficients:\n"] ++
          [.outMat (readEntry entries "Distortion-Coefficients")] ++
          [.out "\n\n"] ++ [.initUndistortRectifyMap (readEntry entries "Camera-Matrix")
            (readEntry entries "Distortion-Coefficients")
            (cv.getOptimalNewCameraMatrix (readEntry entries "Camera-Matrix")
              (readEntry entries "Distortion-Coefficients") capture.frameSize)
            capture.frameSize]⟩ := by
  simp only [calibratedLiveView, getFS_bind_run, h, cout_bind_run, emit_bind_run]

theorem calibratedLiveView_quiet (cv : Vision) (cwd : Path) (capture : Camera) (w : World) :
    ∃ evs, calibratedLiveView cv cwd capture w = .done () ⟨w.fs, w.trace ++ evs⟩ ∧
      ∀ e ∈ evs, quiet e = true := by
  by_cases h : ∃ entries, w.fs.lookup (calibrationFile cwd) = some (.file (.storage entries))
  · obtain ⟨entries, h⟩ := h
    rw [calibratedLiveView_file cv cwd capture w entries h]
    obtain ⟨evs, hrun, hq⟩ := liveLoop_run cv
      (cv.initUndistortRectifyMap (readEntry entries "Camera-Matrix")
        (readEntry entries "Distortion-Coefficients")
        (cv.getOptimalNewCameraMatrix (readEntry entries "Camera-Matrix")
          (readEntry entries "Distortion-Coefficients") capture.frameSize) capture.frameSize).1
      (cv.initUndistortRectifyMap (readEntry entries "Camera-Matrix")
        (readEntry entries "Distortion-Coefficients")
        (cv.getOptimalNewCameraMatrix (readEntry entries "Camera-Matrix")
          (readEntry entries "Distortion-Coefficients") capture.frameSize) capture.frameSize).2
      capture.stream
      ⟨w.fs, w.trace ++ [.out "\n"] ++ [.out "Camera Matrix:\n"] ++
        [.outMat (readEntry entries "Camera-Matrix")] ++
        [.out "\n\n"] ++ [.out "Distortion Coefficients:\n"] ++
        [.outMat (readEntry entries "Distortion-Coefficients")] ++
        [.out "\n\n"] ++ [.initUndistortRectifyMap (readEntry entries "Camera-Matrix")
          (readEntry entries "Distortion-Coefficients")
          (cv.getOptimalNewCameraMatrix (readEntry entries "Camera-Matrix")
            (readEntry entries "Distortion-Coefficients") capture.frameSize)
          capture.frameSize]⟩
    refine ⟨[.out "\n"] ++ [.out "Camera Matrix:\n"] ++
        [.outMat (readEntry entries "Camera-Matrix")] ++
        [.out "\n\n"] ++ [.out "Distortion Coefficients:\n"] ++
        [.outMat (readEntry entries "Distortion-Coefficients")] ++
        [.out "\n\n"] ++ [.initUndistortRectifyMap (readEntry entries "Camera-Matrix")
          (readEntry entries "Distortion-Coefficients")
          (cv.getOptimalNewCameraMatrix (readEntry entries "Camera-Matrix")
            (readEntry entries "Distortion-Coefficients") capture.frameSize)
          capture.frameSize] ++ evs, ?_, ?_⟩
    · rw [hrun]; simp
    · refine quiet_append _ _ ?_ hq
      intro e he
      simp only [List.mem_append, List.mem_singleton] at he
      rcases he with ((((((rfl | rfl) | rfl) | rfl) | rfl) | rfl) | rfl) | rfl <;> rfl
  · rw [calibratedLiveView_no_file cv cwd capture w (fun entries heq => h ⟨entries, heq⟩)]
    refine ⟨[.out "Unable to open: calibration.xml\n"], rfl, ?_⟩
    intro e he
    rw [List.mem_singleton] at he
    rw [he]; rfl

theorem displayHelp_run (appName : String) (w : World) :
    displayHelp appName w = .done () ⟨w.fs, w.trace ++
      [.out "Invalid arguments, please use:\n",
       .out (appName ++ " -c [#camera] [some-path] -d\n"),
       .out (appName ++ " -t [#camera]\n")]⟩ := by
  simp [displayHelp, cout, emit, bind_run]

/-- A world whose trace holds no solver call. -/
theorem no_solver_of_trace (w : World) (evs : List Event) (h : w.trace = evs)
    (hevs : ∀ e ∈ evs, ∀ o i sz, e ≠ Event.calibrateCamera o i sz) :
    ∀ o i sz, Event.calibrateCamera o i sz ∉ w.trace := by
  intro o i sz hmem
  rw [h] at hmem
  exact hevs _ hmem o i sz rfl

theorem help_no_solver (appName : String) :
    ∀ e ∈ [Event.out "Invalid arguments, please use:\n",
       Event.out (appName ++ " -c [#camera] [some-path] -d\n"),
       Event.out (appName ++ " -t [#camera]\n")], ∀ o i sz, e ≠ Event.calibrateCamera o i sz := by
  intro e he o i sz
  simp only [List.mem_cons, List.mem_singleton, List.not_mem_nil, or_false] at he
  rcases he with rfl | rfl | rfl <;> simp

/-- The route `main` takes: either it ends without a solver call, or it goes
on to the end of the `-c` branch from a world with a quiet trace in which the
calibration file is as at the start or gone. -/
theorem main_routes (cv : Vision) (cwd : Path) (argv : List String) (fs : FS) :
    (∀ w1, (main cv cwd argv ⟨fs, []⟩).world? = some w1 →
      ∀ o i sz, Event.calibrateCamera o i sz ∉ w1.trace) ∨
    (∃ arg2 p w0, main cv cwd argv ⟨fs, []⟩ = acquireAndCalibrate cv cwd arg2 p w0 ∧
      (∀ e ∈ w0.trace, quiet e = true) ∧
      (w0.fs.lookup (calibrationFile cwd) = fs.lookup (calibrationFile cwd) ∨
        (w0.fs.lookup (calibrationFile cwd) = none ∧
          ∃ c, Event.remove_all c ∈ w0.trace))) := by
  match argv with
  | [] =>
    left
    intro w1 h
    exact absurd h (by simp [main, arg, bind_run, Outcome.world?])
  | [a] =>
    left
    intro w1 h
    have hm : main cv cwd [a] ⟨fs, []⟩ = .done 0 ⟨fs, [] ++
      [.out "Invalid arguments, please use:\n",
       .out (a ++ " -c [#camera] [some-path] -d\n"),
       .out (a ++ " -t [#camera]\n")]⟩ := by
      simp [main, arg, bind_run, displayHelp_run]
    rw [hm] at h
    have hw := Option.some.inj h
    exact no_solver_of_trace w1 _ (by rw [← hw]; rfl) (help_no_solver a)
  | a :: cmd :: rest =>
    by_cases hc : cmd = "-c"
    · subst hc
      match rest with
      | [] =>
        left
        intro w1 h
        exact absurd h (by simp [main, arg, bind_run, Outcome.world?])
      | [x] =>
        left
        intro w1 h
        exact absurd h (by simp [main, arg, bind_run, Outcome.world?])
      | [x, y] =>
        cases hl : fs.lookup (pathAppend cwd y) with
        | none =>
          left
          intro w1 h
          have hm : main cv cwd [a, "-c", x, y] ⟨fs, []⟩ =
              .throw (.filesystem_error "is_empty") ⟨fs, []⟩ := by
            simp [main, arg, bind_run, is_empty, getFS, hl, raise]
          rw [hm] at h
          have hw := Option.some.inj h
          rw [← hw]
          intro o i sz hmem
          exact absurd hmem (List.not_mem_nil _)
        | some n =>
          by_cases hemp : (match n with
              | .dir => (fs.children (pathAppend cwd y)).isEmpty
              | .file (.bytes []) => true
              | .file _ => false) = true
          · right
            refine ⟨x, pathAppend cwd y, ⟨fs, []⟩, ?_, by simp, Or.inl rfl⟩
            cases n with
            | dir =>
              simp only at hemp
              simp [main, arg, bind_run, is_empty, getFS, hl, hemp]
            | file c =>
              cases c with
              | bytes d =>
                cases d with
                | nil => simp [main, arg, bind_run, is_empty, getFS, hl]
                | cons b d => simp at hemp
              | image m => simp at hemp
              | storage en => simp at hemp
          · left
            intro w1 h
            have hm : main cv cwd [a, "-c", x, y] ⟨fs, []⟩ =
                .done 0 ⟨fs, [.out "The calibration images directory ",
                  .outPath (pathAppend cwd y),
                  .out " is not empty\n",
                  .out "Perhaps add the -d option and retry\n"]⟩ := by
              cases n with
              | dir =>
                simp only [Bool.not_eq_true] at hemp
                simp [main, arg, bind_run, is_empty, getFS, hl, hemp, cout, emit]
              | file c =>
                cases c with
                | bytes d =>
                  cases d with
                  | nil => simp at hemp
                  | cons b d => simp [main, arg, bind_run, is_empty, getFS, hl, cout, emit]
                | image m => simp [main, arg, bind_run, is_empty, getFS, hl, cout, emit]
                | storage en => simp [main, arg, bind_run, is_empty, getFS, hl, cout, emit]
            rw [hm] at h
            have hw := Option.some.inj h
            refine no_solver_of_trace w1 _ (by rw [← hw]) ?_
            intro e he o i sz
            simp only [List.mem_cons, List.mem_singleton, List.not_mem_nil, or_false] at he
            rcases he with rfl | rfl | rfl | rfl <;> simp
      | [x, y, z] =>
        by_cases hz : z = "-d"
        · subst hz
          by_cases hdir : fs.isDir (pathAppend cwd y) = true
          · right
            obtain ⟨fs1, hrem, hwithin, hnil⟩ :=
              removeEntries_within (fs.children (pathAppend cwd y)) ⟨fs, []⟩
            simp only [List.nil_append] at hrem
            refine ⟨x, pathAppend cwd y,
              ⟨fs1,
                (fs.children (pathAppend cwd y)).map Event.remove_all ++
                [.out "The existing calibration images in ",
                 .outPath (pathAppend cwd y),
                 .out " have been deleted\n"]⟩, ?_, ?_, ?_⟩
            rotate_left 2
            · cases hch : fs.children (pathAppend cwd y) with
              | nil =>
                rw [hnil hch]
                exact Or.inl rfl
              | cons c cs =>
                rcases lookup_within fs1 fs hwithin (calibrationFile cwd) with h | h
                · exact Or.inl h
                · exact Or.inr ⟨h, c, by simp⟩
            · simp [main, arg, bind_run, directory_iterator, getFS, hdir, hrem, cout, emit]
            · intro e he
              simp only [List.mem_append, List.mem_map, List.mem_cons, List.mem_singleton,
                List.not_mem_nil, or_false] at he
              rcases he with ⟨c, _, rfl⟩ | rfl | rfl | rfl <;> rfl
          · left
            intro w1 h
            have hd : fs.isDir (pathAppend cwd y) = false := by simpa using hdir
            have hm : main cv cwd [a, "-c", x, y, "-d"] ⟨fs, []⟩ =
                .throw (.filesystem_error "directory_iterator") ⟨fs, []⟩ := by
              simp [main, arg, bind_run, directory_iterator, getFS, hd, raise]
            rw [hm] at h
            have hw := Option.some.inj h
            rw [← hw]
            intro o i sz hmem
            exact absurd hmem (List.not_mem_nil _)
        · left
          intro w1 h
          have hm : main cv cwd [a, "-c", x, y, z] ⟨fs, []⟩ = .done 0 ⟨fs, [] ++
              [.out "Invalid arguments, please use:\n",
               .out (a ++ " -c [#camera] [some-path] -d\n"),
               .out (a ++ " -t [#camera]\n")]⟩ := by
            simp [main, arg, bind_run, displayHelp_run, hz]
          rw [hm] at h
          have hw := Option.some.inj h
          exact no_solver_of_trace w1 _ (by rw [← hw]; rfl) (help_no_solver a)
      | x :: y :: z :: u :: more =>
        right
        refine ⟨x, pathAppend cwd y, ⟨fs, []⟩, ?_, by simp, Or.inl rfl⟩
        simp [main, arg, bind_run]
    · by_cases ht : rest.length = 1 ∧ cmd = "-t"
      · obtain ⟨hlen, hcmd⟩ := ht
        subst hcmd
        match rest, hlen with
        | [x], _ =>
          left
          intro w1 h
          rcases stoi_cases x ⟨fs, []⟩ with ⟨e, hs⟩ | ⟨v, hs⟩
          · have hm : main cv cwd [a, "-t", x] ⟨fs, []⟩ = .throw e ⟨fs, []⟩ := by
              simp [main, arg, bind_run, hs]
            rw [hm] at h
            have hw := Option.some.inj h
            rw [← hw]
            intro o i sz hmem
            exact absurd hmem (List.not_mem_nil _)
          · by_cases hopen : (cv.camera v).isOpened = true
            · obtain ⟨evs, hrun, hq⟩ := calibratedLiveView_quiet cv cwd (cv.camera v)
                ⟨fs, [.openCapture v]⟩
              have hm : main cv cwd [a, "-t", x] ⟨fs, []⟩ =
                  .done 0 ⟨fs, [.openCapture v] ++ evs⟩ := by
                simp [main, arg, bind_run, hs, emit, hopen, hrun]
              rw [hm] at h
              have hw := Option.some.inj h
              rw [← hw]
              intro o i sz hmem
              refine absurd hmem (not_mem_of_quiet _ (quiet_append _ _ ?_ hq) o i sz)
              intro e he
              rw [List.mem_singleton] at he
              rw [he]; rfl
            · have hclosed : (cv.camera v).isOpened = false := by simpa using hopen
              have hm : main cv cwd [a, "-t", x] ⟨fs, []⟩ =
                  .done 0 ⟨fs, [.openCapture v,
                    .out ("Failed to open the video stream for camera #" ++ toString v ++ "\n")]⟩ := by
                simp [main, arg, bind_run, hs, emit, hclosed, cout]
              rw [hm] at h
              have hw := Option.some.inj h
              refine no_solver_of_trace w1 _ (by rw [← hw]) ?_
              intro e he o i sz
              simp only [List.mem_cons, List.mem_singleton, List.not_mem_nil, or_false] at he
              rcases he with rfl | rfl <;> simp
      · left
        intro w1 h
        have hm : main cv cwd (a :: cmd :: rest) ⟨fs, []⟩ = .done 0 ⟨fs, [] ++
            [.out "Invalid arguments, please use:\n",
             .out (a ++ " -c [#camera] [some-path] -d\n"),
             .out (a ++ " -t [#camera]\n")]⟩ := by
          simp [main, arg, bind_run, displayHelp_run, hc, ht]
        rw [hm] at h
        have hw := Option.some.inj h
        exact no_solver_of_trace w1 _ (by rw [← hw]; rfl) (help_no_solver a)

theorem hits_eq_nil (cv : Vision) (fs : FS) (ps : List Path)
    (h : ∀ p ∈ ps, isCandidate fs p = true → detected cv fs p = false) :
    hits cv fs ps = [] := by
  unfold hits
  rw [List.filterMap_eq_nil_iff]
  intro p hp
  have hp2 := List.mem_filter.1 hp
  have := h p hp2.1 hp2.2
  unfold detected at this
  unfold foundCorners
  cases hf : cv.findChessboardCorners (cv.cvtColor (imread fs p)) patternSize with
  | none => rfl
  | some cs => rw [hf] at this; simp at this


/-- C8, amended: (1) when every regular `.png` file of an existing images
directory decodes and on none of them the detector succeeds,
`generateCalibration` calls the solver once, with empty object-point and
image-point lists; (2) in every run of `main` in which a solver call raised a
library error, `main` returns 0, the trace ends with that call, the "Unable to
generate the camera calibration parameters" message and the reason string of
the error, nothing before them is a success message, a saved storage or
another solver call, and `calibration.xml` is not created and is given no
content: it is as it was at the start, or it is absent after a `remove_all` of
the `-d` deletion. -/
theorem solver_error_is_caught_by_main (cv : Vision) (cwd : Path) :
    (∀ (imagesPath : Path) (w : World), w.fs.isDir imagesPath = true →
      (∀ p ∈ w.fs.children imagesPath, isCandidate w.fs p = true → undecodable w.fs p = false) →
      (∀ p ∈ w.fs.children imagesPath, isCandidate w.fs p = true → detected cv w.fs p = false) →
      ∃ w1, (generateCalibration cv cwd imagesPath w).world? = some w1 ∧
        solverCalls w1.trace = solverCalls w.trace ++ [([], [], ⟨1920, 1080⟩)]) ∧
    (∀ (argv : List String) (fs : FS) (w1 : World) (o : List (List Point3f))
      (i : List (List Point2f)) (sz : Size) (what : String),
      (main cv cwd argv ⟨fs, []⟩).world? = some w1 →
      Event.calibrateCamera o i sz ∈ w1.trace →
      cv.calibrateCamera o i sz = .error what →
      main cv cwd argv ⟨fs, []⟩ = .done 0 w1 ∧
      (∃ t, w1.trace = t ++ [.calibrateCamera o i sz,
          .out "Unable to generate the camera calibration parameters\n",
          .out ("Reason: " ++ what ++ "\n")] ∧
        ∀ e ∈ t, quiet e = true) ∧
      (w1.fs.lookup (calibrationFile cwd) = fs.lookup (calibrationFile cwd) ∨
        (w1.fs.lookup (calibrationFile cwd) = none ∧
          ∃ c, Event.remove_all c ∈ w1.trace))) := by
  constructor
  · intro imagesPath w hdir hdec hnone
    obtain ⟨evs, _, hq, hrun⟩ := generateCalibration_run cv cwd imagesPath w hdir
    have hS := sortedFileSet_spec (w.fs.children imagesPath)
    have hh : hits cv w.fs (sortedFileSet (w.fs.children imagesPath)) = [] :=
      hits_eq_nil cv w.fs _ (fun p hp => hnone p ((hS.2 p).1 hp))
    have hany : ¬ ((sortedFileSet (w.fs.children imagesPath)).filter (isCandidate w.fs)).any
        (undecodable w.fs) = true := by
      rw [Bool.not_eq_true, List.any_eq_false]
      intro x hx
      have hx2 := List.mem_filter.1 hx
      rw [hdec x ((hS.2 x).1 hx2.1) hx2.2]
      exact Bool.false_ne_true
    rw [if_neg hany, hh] at hrun
    rw [hrun]
    cases cv.calibrateCamera (List.replicate ([] : List (List Point2f)).length objP) []
        ⟨1920, 1080⟩ with
    | error what =>
      refine ⟨_, rfl, ?_⟩
      simp only [solverCalls_append, solverCalls_quiet evs hq]
      simp [solverCalls]
    | ok r =>
      refine ⟨_, rfl, ?_⟩
      simp only [solverCalls_append, solverCalls_quiet evs hq]
      by_cases hw : w.fs.canWrite (calibrationFile cwd) = true
      · simp [solverCalls, reportEvents, hw]
      · simp [solverCalls, reportEvents, hw]
  · intro argv fs w1 o i sz what hw1 hmem herr
    rcases main_routes cv cwd argv fs with hno | ⟨arg2, p, w0, hm, hq0, hfs0⟩
    · exact absurd hmem (hno w1 hw1 o i sz)
    · rw [hm] at hw1 ⊢
      obtain ⟨hdone, ⟨t, htr, hqt⟩, hfs⟩ :=
        acquireAndCalibrate_solver_error cv cwd arg2 p w0 w1 o i sz what hq0 hw1 hmem herr
      refine ⟨hdone, ⟨w0.trace ++ t, htr, quiet_append _ _ hq0 hqt⟩, ?_⟩
      rw [hfs]
      rcases hfs0 with h | ⟨h, c, hc⟩
      · exact Or.inl h
      · refine Or.inr ⟨h, c, ?_⟩
        rw [htr]
        exact List.mem_append_left _ (List.mem_append_left _ hc)

/-- An instance of C8: `app -c 0 imgs` on an empty `imgs`, three images
confirmed, no pattern found, the solver refusing with "nimages > 0". -/
theorem solver_error_is_caught_example :
    (∃ w1, (generateCalibration (visionWith closedCamera) ["work"] ["work", "imgs"]
        ⟨fsMixedEntries, []⟩).world? = some w1 ∧
      solverCalls w1.trace = solverCalls [] ++ [([], [], ⟨1920, 1080⟩)]) ∧
    (main (visionWith (cameraWith [([[1]], 13), ([[2]], 13), ([[3]], 13), ([[4]], 27)]))
        ["work"] ["app", "-c", "0", "imgs"] ⟨fsOldCalibrationEmptyImgs, []⟩ =
        .done 0 worldAfterFailedRun ∧
      (∃ t, worldAfterFailedRun.trace = t ++ [.calibrateCamera [] [] ⟨1920, 1080⟩,
          .out "Unable to generate the camera calibration parameters\n",
          .out ("Reason: " ++ "nimages > 0" ++ "\n")] ∧
        ∀ e ∈ t, quiet e = true) ∧
      (worldAfterFailedRun.fs.lookup (calibrationFile ["work"]) =
          fsOldCalibrationEmptyImgs.lookup (calibrationFile ["work"]) ∨
        (worldAfterFailedRun.fs.lookup (calibrationFile ["work"]) = none ∧
          ∃ c, Event.remove_all c ∈ worldAfterFailedRun.trace))) :=
  ⟨(solver_error_is_caught_by_main (visionWith closedCamera) ["work"]).1 ["work", "imgs"]
      ⟨fsMixedEntries, []⟩ (by decide) (by decide) (by decide),
   (solver_error_is_caught_by_main
      (visionWith (cameraWith [([[1]], 13), ([[2]], 13), ([[3]], 13), ([[4]], 27)]))
      ["work"]).2 ["app", "-c", "0", "imgs"] fsOldCalibrationEmptyImgs worldAfterFailedRun
      [] [] ⟨1920, 1080⟩ "nimages > 0" (by decide!) (by decide!) rfl⟩

/-- The run of the instance of C8: the calibration file of the earlier run is
as it was. -/
theorem solver_error_leaves_calibration_file_example :
    worldAfterFailedRun.fs.lookup (calibrationFile ["work"]) =
      some (.file (.storage [("Camera-Matrix", [[7]])])) := by
  decide!

/-- C8 as stated fails, in both parts.  (1) `/work/imgs` holds `a_junk.png`,
which `cv::imread` cannot decode, and an image without a pattern: on no image
detection succeeds, and `generateCalibration` is left by the exception of
`cv::cvtColor` without a solver call.  (2) `app -c 0 . -d` in a working
directory that holds `calibration.xml`: the deletion removes the file with the
rest of the directory, the solver then raises, `main` reports it and returns 0,
and `calibration.xml`, which existed at the start, is gone. -/
theorem solver_error_claim_fails :
    (fsJunkFirst.isDir ["work", "imgs"] = true ∧
      (∀ p ∈ fsJunkFirst.children ["work", "imgs"],
        detected (visionWith closedCamera) fsJunkFirst p = false) ∧
      generateCalibration (visionWith closedCamera) ["work"] ["work", "imgs"]
          ⟨fsJunkFirst, []⟩ =
        .throw (.cv "(-215:Assertion failed) !_src.empty() in function cvtColor")
          ⟨fsJunkFirst, [.out "\nPress any key to progress to the next image\n",
            .out "Processing image: a_junk.png\n",
            .imread ["work", "imgs", "a_junk.png"]]⟩ ∧
      solverCalls [.out "\nPress any key to progress to the next image\n",
            .out "Processing image: a_junk.png\n",
            .imread ["work", "imgs", "a_junk.png"]] = []) ∧
    (fsOldCalibrationEmptyImgs.lookup (calibrationFile ["work"]) =
        some (.file (.storage [("Camera-Matrix", [[7]])])) ∧
      main (visionWith (cameraWith [([[1]], 27)])) ["work"] ["app", "-c", "0", ".", "-d"]
          ⟨fsOldCalibrationEmptyImgs, []⟩ =
        .done 0 ⟨⟨[([], .dir), (["work"], .dir)]⟩,
          [.remove_all ["work", ".", "imgs"], .remove_all ["work", ".", "calibration.xml"],
           .out "The existing calibration images in ", .outPath ["work", "."],
           .out " have been deleted\n",
           .openCapture 0, .out "Hit RETURN to grab an image, ESC to quit...\n",
           .imshow "Calibration Image" [[1]],
           .out "Aquired 0 calibration images\n",
           .out "\nPress any key to progress to the next image\n",
           .calibrateCamera [] [] ⟨1920, 1080⟩,
           .out "Unable to generate the camera calibration parameters\n",
           .out "Reason: nimages > 0\n"]⟩ ∧
      (visionWith (cameraWith [([[1]], 27)])).calibrateCamera [] [] ⟨1920, 1080⟩ =
        .error "nimages > 0" ∧
      (FS.mk [([], .dir), (["work"], .dir)]).lookup (calibrationFile ["work"]) = none) := by
  refine ⟨⟨by decide, by decide, by decide!, by decide⟩, by decide, by decide!, rfl, by decide⟩


end CamCal
